import Mathlib

/-!
# FoamToNumpy: flattening of OpenFOAM vector fields into float32 files

A shallow embedding of `FoamToNumpy.C` (the `main` function of the utility) and the
properties of its specification.

* Scalars of the simulation (`Foam::scalar`) are an arbitrary type `S`, the C `float`
  an arbitrary type `F`; the implicit conversion of `U_flat[idx] = U[i].x()` and the
  object representation of a `float` are the two fields of `Platform`.
* `int` arithmetic is arithmetic on `Nat` with an explicit check against `INT_MAX`;
  an overflow, like an access outside an array, ends in `Outcome.undefined`.
* The case directory and the working directory are a `World`; what `fopen` and
  `fwrite` answer is an `Env`.
* The two collaborators of the OpenFOAM library that decide how a run fails, the time
  selector and the reader of a field, are `select0` and `readField`, written after the
  specification.
-/

namespace FoamToNumpy

/-! ## Data model -/

/-- Foam::vector, three components of the scalar type. -/
structure vector (S : Type) where
  x : S
  y : S
  z : S
deriving DecidableEq, Repr

/-- Largest value of a 32-bit C++ `int`. -/
def INT_MAX : Nat := 2 ^ 31 - 1

/-- The value of `sizeof(float)`. -/
def sizeofFloat : Nat := 4

/-- The numeric platform: `narrow` is the implicit conversion from `Foam::scalar` to
`float` in `U_flat[idx] = U[i].x()`, `repr` the object representation of a `float`
(`sizeof(float)` bytes in the byte order of the machine). -/
structure Platform (S F : Type) where
  narrow : S → F
  repr : F → Fin 4 → Fin 256

/-- The bytes `fwrite` emits for a sequence of floats: the object representations one
after the other, nothing before, between or after them. -/
def Platform.bytes {S F : Type} (P : Platform S F) : List F → List (Fin 256)
  | [] => []
  | f :: fs => List.ofFn (P.repr f) ++ P.bytes fs

/-! ## The flattening loop (lines 104-114) -/

/-- State of the flattening loop: the `int idx`, the two buffers, and (ghost) the indices
stored into each buffer so far, in the order of the stores. -/
structure LoopState (F : Type) where
  idx : Nat
  U_flat : List F
  cellC_flat : List F
  storedU : List Nat
  storedC : List Nat
deriving DecidableEq, Repr

/-- The store `buf[idx] = v` into a raw array: outside the array it is undefined. -/
def assign {F : Type} (buf : List F) (idx : Nat) (v : F) : Option (List F) :=
  if idx < buf.length then some (buf.set idx v) else none

/-- The increment of `idx++` on an `int`: undefined when it overflows. -/
def increment (idx : Nat) : Option Nat :=
  if idx < INT_MAX then some (idx + 1) else none

/-- One pair of statements `cellC_flat[idx] = c; U_flat[idx++] = u;`. -/
def storePair {S F : Type} (P : Platform S F) (c u : S) (st : LoopState F) :
    Option (LoopState F) := do
  let cb ← assign st.cellC_flat st.idx (P.narrow c)
  let ub ← assign st.U_flat st.idx (P.narrow u)
  let idx ← increment st.idx
  pure ⟨idx, ub, cb, st.storedU ++ [st.idx], st.storedC ++ [st.idx]⟩

/-- The body of `forAll(U, i)` for cell `i`: `U[i]` is inside `U` by the loop condition,
`cellC[i]` is an unchecked access. -/
def flattenBody {S F : Type} (P : Platform S F) (U cellC : List (vector S))
    (st : LoopState F) (i : Nat) : Option (LoopState F) := do
  let u ← U[i]?
  let c ← cellC[i]?
  let st ← storePair P c.x u.x st
  let st ← storePair P c.y u.y st
  storePair P c.z u.z st

/-- The loop state before the iteration for cell `i`, starting from `int idx = 0`. -/
def flattenUpTo {S F : Type} (P : Platform S F) (U cellC : List (vector S))
    (U_flat cellC_flat : List F) (i : Nat) : Option (LoopState F) :=
  (List.range i).foldlM (flattenBody P U cellC) ⟨0, U_flat, cellC_flat, [], []⟩

/-- The whole loop `int idx = 0; forAll(U, i) { ... }`. -/
def flatten {S F : Type} (P : Platform S F) (U cellC : List (vector S))
    (U_flat cellC_flat : List F) : Option (LoopState F) :=
  flattenUpTo P U cellC U_flat cellC_flat U.length

/-- The layout `[x0, y0, z0, x1, y1, z1, ...]` of the specification, each component
narrowed to `float`. -/
def interleaved {S F : Type} (P : Platform S F) : List (vector S) → List F
  | [] => []
  | v :: vs => P.narrow v.x :: P.narrow v.y :: P.narrow v.z :: interleaved P vs

/-! ## The run (lines 58-146) -/

/-- How the process ends: `exit code` is a `return code` of `main` or a call `exit(code)`
of the program itself; `fatalError` is a fatal error raised inside the OpenFOAM
library (the process ends there with a non-zero code); `undefined` is C++ undefined
behaviour (signed overflow, access outside an array). -/
inductive Outcome where
  | exit (code : Nat)
  | fatalError
  | undefined
deriving DecidableEq, Repr

/-- The process ended and reported a failure to its caller. -/
def Outcome.nonZero : Outcome → Prop
  | .exit code => code ≠ 0
  | .fatalError => True
  | .undefined => False

/-- Foam::instant, a selected time step; the program uses its name only
(`runTime.timeName()` after `runTime.setTime(timeDirs[timei], timei)`). -/
structure instant where
  name : String
deriving DecidableEq, Repr

/-- Foam::fvMesh as the program sees it: the cell-centre field `mesh.C()`, one vector
per cell, so that `mesh.cells().size()` is its length. -/
structure fvMesh (S : Type) where
  C : List (vector S)

/-- The value of `mesh.cells().size()`. -/
def fvMesh.nCells {S : Type} (mesh : fvMesh S) : Nat := mesh.C.length

/-- What is on disk: `fields time name` is the field `name` stored in the time directory
`time` of the case, `files name` the floats held by the file `name` of the working
directory. -/
structure World (S F : Type) where
  fields : String → String → Option (List (vector S))
  files : String → Option (List F)

/-- The file `name` now holds `data`. -/
def World.writeFile {S F : Type} (w : World S F) (name : String) (data : List F) :
    World S F :=
  { w with files := fun f => if f = name then some data else w.files f }

/-- The field `field` of time directory `time` now holds `val`. -/
def World.writeField {S F : Type} (w : World S F) (time field : String)
    (val : List (vector S)) : World S F :=
  { w with fields := fun t f => if t = time ∧ f = field then some val else w.fields t f }

/-- The answers of the C library: `canOpen name` tells whether `fopen(name, "wb")` returns
a stream, `stored name count` how many of the `count` items of an `fwrite` to `name`
reach the file. -/
structure Env where
  canOpen : String → Bool
  stored : String → Nat → Nat

/-- The items that reach the file in `fwrite(buf, sizeof(float), count, fp)`. -/
def fwrite {F : Type} (env : Env) (name : String) (buf : List F) (count : Nat) : List F :=
  buf.take (min count (env.stored name count))

/-- What a run did, in order (ghost): a field that could not be read, an `fopen` that
returned `NULL`, a file opened, written with `data` (of which `stored` items reached
it) and closed, and a `cellC.write()`. -/
inductive Event (F : Type) where
  | readFailed (timei : Nat) (time : String)
  | openFailed (timei : Nat) (time : String) (file : String)
  | wrote (timei : Nat) (time : String) (file : String) (data : List F) (stored : Nat)
  | fieldWritten (timei : Nat) (time : String)
deriving DecidableEq, Repr

/-- The index of the time step an event belongs to. -/
def Event.timei {F : Type} : Event F → Nat
  | .readFailed i _ => i
  | .openFailed i _ _ => i
  | .wrote i _ _ _ _ => i
  | .fieldWritten i _ => i

/-- The state carried across the time loop: the two buffers allocated before the loop,
the disk, and the log. -/
structure RunState (S F : Type) where
  U_flat : List F
  cellC_flat : List F
  world : World S F
  log : List (Event F)

/-- Result of one pass through the body of the time loop. -/
inductive Step (σ : Type) where
  | next (st : σ)
  | halt (o : Outcome) (st : σ)

/-- The name `"U_flat_" + runTime.timeName() + ".bin"`. -/
def U_name (time : String) : String := "U_flat_" ++ time ++ ".bin"

/-- The name `"cellC_flat_" + runTime.timeName() + ".bin"`. -/
def cellC_name (time : String) : String := "cellC_flat_" ++ time ++ ".bin"

/-- Modelled from the spec: the constructor of a `volVectorField` read `MUST_READ`, which
belongs to the OpenFOAM library and is not under `src/`. By section 4.2, step 1, and
section 7 of the specification, the field must exist at the time step with exactly as many
values as the mesh has cells; a field that is missing or has another number of values is a
`FieldReadError` of the reader, here `none`. -/
def readField {S F : Type} (mesh : fvMesh S) (w : World S F) (time name : String) :
    Option (List (vector S)) :=
  match w.fields time name with
  | some U => if U.length = mesh.nCells then some U else none
  | none => none

/-- Modelled from the spec: `timeSelector::select0`, which belongs to the OpenFOAM library
and is not under `src/`. By section 4.1 of the specification, from the selection criteria
of the user and the time directories present in the case it produces the time steps that
satisfy the criteria, in order, and fails with `NoMatchingTimes`, here `none`, when no time
directory satisfies them. -/
def select0 (criteria : instant → Bool) (times : List instant) : Option (List instant) :=
  match times.filter criteria with
  | [] => none
  | t :: ts => some (t :: ts)

/-- The body of `forAll(timeDirs, timei)` (lines 74-138) for the time step `t`. -/
def timeStep {S F : Type} (P : Platform S F) (env : Env) (mesh : fvMesh S)
    (timei : Nat) (t : instant) (st : RunState S F) : Step (RunState S F) :=
  let n := mesh.nCells
  -- volVectorField U(IOobject("U", runTime.timeName(), mesh, MUST_READ, NO_WRITE), mesh)
  match readField mesh st.world t.name "U" with
  | none => .halt .fatalError { st with log := st.log ++ [.readFailed timei t.name] }
  | some U =>
    -- volVectorField cellC(IOobject("cellC", ..., NO_READ, AUTO_WRITE), mesh.C())
    let cellC := mesh.C
    match flatten P U cellC st.U_flat st.cellC_flat with
    | none => .halt .undefined st
    | some ls =>
      let filename := U_name t.name
      if env.canOpen filename then
        let out := fwrite env filename ls.U_flat (3 * n)
        let w1 := st.world.writeFile filename out
        let log1 := st.log ++ [.wrote timei t.name filename (ls.U_flat.take (3 * n)) out.length]
        let filename2 := cellC_name t.name
        if env.canOpen filename2 then
          let out2 := fwrite env filename2 ls.cellC_flat (3 * n)
          let w2 := w1.writeFile filename2 out2
          let log2 := log1 ++
            [.wrote timei t.name filename2 (ls.cellC_flat.take (3 * n)) out2.length]
          -- cellC.write()
          let w3 := w2.writeField t.name "cellC" cellC
          .next ⟨ls.U_flat, ls.cellC_flat, w3, log2 ++ [.fieldWritten timei t.name]⟩
        else
          .halt (.exit 1)
            ⟨ls.U_flat, ls.cellC_flat, w1, log1 ++ [.openFailed timei t.name filename2]⟩
      else
        .halt (.exit 1)
          ⟨ls.U_flat, ls.cellC_flat, st.world,
            st.log ++ [.openFailed timei t.name filename]⟩

/-- The loop `forAll(timeDirs, timei)` from index `timei` on. -/
def timeLoop {S F : Type} (P : Platform S F) (env : Env) (mesh : fvMesh S) :
    Nat → List instant → RunState S F → Step (RunState S F)
  | _, [], st => .next st
  | timei, t :: ts, st =>
    match timeStep P env mesh timei t st with
    | .next st1 => timeLoop P env mesh (timei + 1) ts st1
    | .halt o st1 => .halt o st1

/-- The array `new float[3*n]`: its elements are not initialised, `junk` is what the
memory holds. -/
def newArray {F : Type} (junk : Nat → F) (size : Nat) : List F :=
  (List.range size).map junk

/-- What a run leaves: how the process ended, the disk, and the log. -/
structure Run (S F : Type) where
  outcome : Outcome
  world : World S F
  log : List (Event F)

/-- The program. `sel` is the result of `timeSelector::select0` (`none`: the selector
raised its fatal error, see `select0`), `mesh` the mesh of `createNamedMesh.H`, `junkU`
and `junkC` what the memory of the two arrays holds when they are allocated (the memory
itself is taken to be available), `w` the disk at the start. -/
def main {S F : Type} (P : Platform S F) (env : Env) (sel : Option (List instant))
    (mesh : fvMesh S) (junkU junkC : Nat → F) (w : World S F) : Run S F :=
  match sel with
  | none => ⟨.fatalError, w, []⟩
  | some timeDirs =>
    let n := mesh.nCells
    -- float* U_flat = new float[3*n]: `3*n` is an `int` product
    if 3 * n ≤ INT_MAX then
      let U_flat := newArray junkU (3 * n)
      let cellC_flat := newArray junkC (3 * n)
      match timeLoop P env mesh 0 timeDirs ⟨U_flat, cellC_flat, w, []⟩ with
      | .next st => ⟨.exit 0, st.world, st.log⟩
      | .halt o st => ⟨o, st.world, st.log⟩
    else ⟨.undefined, w, []⟩

/-! ## Notions used in the statements -/

/-- The names of the files the run opened and wrote, in order. -/
def writtenFiles {F : Type} : List (Event F) → List String
  | [] => []
  | .wrote _ _ file _ _ :: es => file :: writtenFiles es
  | _ :: es => writtenFiles es

/-- The file names of the specification for a list of time steps: for each step, in
order, first `U_flat_T.bin`, then `cellC_flat_T.bin`. -/
def outputNames : List instant → List String
  | [] => []
  | t :: ts => U_name t.name :: cellC_name t.name :: outputNames ts

/-- The bytes of the file `name`, when it exists. -/
def World.fileBytes {S F : Type} (P : Platform S F) (w : World S F) (name : String) :
    Option (List (Fin 256)) :=
  (w.files name).map P.bytes

/-- The buffer after the flattening loop over a field of `m = vs.length` cells: the
components of the field, then what the buffer held before from offset `3 * m` on. -/
def refill {S F : Type} (P : Platform S F) (vs : List (vector S)) (old : List F) : List F :=
  interleaved P vs ++ old.drop (3 * vs.length)

/-- The event records a failure: a field that could not be read or a file that could not
be opened. -/
def Event.isFailure {F : Type} : Event F → Bool
  | .readFailed _ _ => true
  | .openFailed _ _ _ => true
  | _ => false

/-- The event without the number of items that reached the file. -/
def Event.eraseStored {F : Type} : Event F → Event F
  | .wrote i T file data _ => .wrote i T file data 0
  | e => e

/-! ## Invariants and relations used in the proofs -/

/-- The two buffers have the capacity `3 * n` they were allocated with. -/
def Sized {S F : Type} (mesh : fvMesh S) (st : RunState S F) : Prop :=
  st.U_flat.length = 3 * mesh.nCells ∧ st.cellC_flat.length = 3 * mesh.nCells

/-- What a run guarantees of each file it writes, relative to the disk `w0` at the start:
the time step has a field `U` of `n` vectors on disk, the data handed to `fwrite`
has `3 * n` items, the items stored are those the C library accepted, and the first
`3 * U.length` items are the interleaved components of `U` (file `U_flat`) or of the cell
centres (file `cellC_flat`). -/
def GoodEvent {S F : Type} (P : Platform S F) (env : Env) (mesh : fvMesh S)
    (w0 : World S F) : Event F → Prop
  | .wrote _ T file data stored =>
      ∃ U, w0.fields T "U" = some U ∧ U.length = mesh.nCells
        ∧ data.length = 3 * mesh.nCells
        ∧ stored = min (3 * mesh.nCells) (env.stored file (3 * mesh.nCells))
        ∧ ((file = U_name T ∧ data.take (3 * U.length) = interleaved P U)
          ∨ (file = cellC_name T
            ∧ data.take (3 * U.length) = interleaved P (mesh.C.take U.length)))
  | _ => True

/-- Two states of the time loop that differ at most in the files of the working directory
and in the numbers of items stored that the log records. -/
def Similar {S F : Type} (s1 s2 : RunState S F) : Prop :=
  s1.U_flat = s2.U_flat ∧ s1.cellC_flat = s2.cellC_flat
  ∧ s1.world.fields = s2.world.fields
  ∧ s1.log.map Event.eraseStored = s2.log.map Event.eraseStored

/-- Two results of a step that go the same way, to similar states. -/
def StepSimilar {S F : Type} : Step (RunState S F) → Step (RunState S F) → Prop
  | .next a, .next b => Similar a b
  | .halt o a, .halt o2 b => o = o2 ∧ Similar a b
  | _, _ => False

/-- Two states of the time loop of two runs of the same program on disks that hold the
same fields `U`: same buffers, same log, and the same content in every file written so
far. -/
def Agree {S F : Type} (s1 s2 : RunState S F) : Prop :=
  s1.U_flat = s2.U_flat ∧ s1.cellC_flat = s2.cellC_flat
  ∧ (∀ T, s1.world.fields T "U" = s2.world.fields T "U")
  ∧ s1.log = s2.log
  ∧ ∀ f ∈ writtenFiles s1.log, s1.world.files f = s2.world.files f

/-- Two results of a step that go the same way, to states that agree. -/
def StepAgree {S F : Type} : Step (RunState S F) → Step (RunState S F) → Prop
  | .next a, .next b => Agree a b
  | .halt o a, .halt o2 b => o = o2 ∧ Agree a b
  | _, _ => False

/-! ## Examples -/

/-- A platform for the examples: scalars and floats are both integers, the conversion
keeps the value (as the conversion of a small whole number to `float` does), and the
bytes of a float are the low four bytes of its value. -/
def PZ : Platform Int Int :=
  ⟨id, fun f i => Fin.ofNat ((f.toNat / 256 ^ i.val) % 256)⟩

/-- The C library of the examples: every file opens and every write is complete. -/
def envOk : Env := ⟨fun _ => true, fun _ count => count⟩

/-- A C library that opens every file except `cellC_flat_0.1.bin`; writes are complete. -/
def envNoCellC : Env := ⟨fun name => decide (name ≠ "cellC_flat_0.1.bin"), fun _ count => count⟩

/-- A C library that opens every file except `U_flat_0.2.bin`; writes are complete. -/
def envNoU : Env := ⟨fun name => decide (name ≠ "U_flat_0.2.bin"), fun _ count => count⟩

/-- A C library that opens every file and stores only 2 of the items written to
`U_flat_0.1.bin`; every other write is complete. -/
def envShort : Env :=
  ⟨fun _ => true, fun name count => if name = "U_flat_0.1.bin" then 2 else count⟩

/-- The mesh of the examples: two cells with centres (10, 20, 30) and (40, 50, 60). -/
def mesh2 : fvMesh Int := ⟨[⟨10, 20, 30⟩, ⟨40, 50, 60⟩]⟩

/-- The case of the examples: `U = [(1, 2, 3), (4, 5, 6)]` at time `0.1`,
`U = [(7, 8, 9), (10, 11, 12)]` at time `0.2`, a field `U` of one vector only,
`[(13, 14, 15)]`, at time `0.3`, a field `U` of three vectors at time `0.4`, no field at
any other time; no file in the working directory. -/
def case2 : World Int Int :=
  ⟨fun t f =>
    if t = "0.1" ∧ f = "U" then some [⟨1, 2, 3⟩, ⟨4, 5, 6⟩]
    else if t = "0.2" ∧ f = "U" then some [⟨7, 8, 9⟩, ⟨10, 11, 12⟩]
    else if t = "0.3" ∧ f = "U" then some [⟨13, 14, 15⟩]
    else if t = "0.4" ∧ f = "U" then some [⟨1, 1, 1⟩, ⟨2, 2, 2⟩, ⟨3, 3, 3⟩]
    else none,
   fun _ => none⟩

/-- A mesh of 715827883 cells, all centred at the origin: `3 * n` is `INT_MAX + 2`. -/
def meshBig : fvMesh Int := ⟨List.replicate 715827883 ⟨0, 0, 0⟩⟩

/-- A case for `meshBig`: at every time a field `U` of 715827883 zero vectors. -/
def caseBig : World Int Int :=
  ⟨fun _ f => if f = "U" then some (List.replicate 715827883 ⟨0, 0, 0⟩) else none,
   fun _ => none⟩

/-! ## The flattening loop in closed form -/

theorem interleaved_length {S F : Type} (P : Platform S F) (vs : List (vector S)) :
    (interleaved P vs).length = 3 * vs.length := by
  induction vs with
  | nil => rfl
  | cons v vs ih => simp [interleaved, ih]; omega

theorem interleaved_append {S F : Type} (P : Platform S F) (vs ws : List (vector S)) :
    interleaved P (vs ++ ws) = interleaved P vs ++ interleaved P ws := by
  induction vs with
  | nil => rfl
  | cons v vs ih => simp [interleaved, ih]

theorem interleaved_getElem {S F : Type} (P : Platform S F) (vs : List (vector S)) (i : Nat)
    (v : vector S) (h : vs[i]? = some v) :
    (interleaved P vs)[3 * i]? = some (P.narrow v.x)
    ∧ (interleaved P vs)[3 * i + 1]? = some (P.narrow v.y)
    ∧ (interleaved P vs)[3 * i + 2]? = some (P.narrow v.z) := by
  induction vs generalizing i with
  | nil => simp at h
  | cons a vs ih =>
    cases i with
    | zero =>
      simp at h; subst h
      simp [interleaved]
    | succ i =>
      simp at h
      have e : 3 * (i + 1) = 3 * i + 1 + 1 + 1 := by omega
      have := ih i h
      simp only [interleaved, e, List.getElem?_cons_succ]
      exact this

theorem assign_closed {F : Type} (A l : List F) (k : Nat) (v : F) (hA : A.length = k)
    (hk : k < l.length) :
    assign (A ++ l.drop k) k v = some ((A ++ [v]) ++ l.drop (k + 1)) := by
  have hlen : k < (A ++ l.drop k).length := by simp [hA]; omega
  simp only [assign, hlen, if_true]
  congr 1
  rw [List.set_append]
  simp only [hA, lt_irrefl, if_false, Nat.sub_self]
  rw [List.drop_eq_getElem_cons hk]
  simp only [List.set_cons_zero, List.append_assoc, List.singleton_append]

theorem storePair_closed {S F : Type} (P : Platform S F) (c u : S) (A B ub cb : List F)
    (k : Nat) (hA : A.length = k) (hB : B.length = k) (hu : k < ub.length)
    (hc : k < cb.length) (hk : k < INT_MAX) :
    storePair P c u ⟨k, A ++ ub.drop k, B ++ cb.drop k, List.range k, List.range k⟩
      = some ⟨k + 1, (A ++ [P.narrow u]) ++ ub.drop (k + 1),
          (B ++ [P.narrow c]) ++ cb.drop (k + 1), List.range (k + 1), List.range (k + 1)⟩ := by
  simp only [storePair, assign_closed A ub k _ hA hu, assign_closed B cb k _ hB hc,
    increment, hk, if_true, List.range_succ]
  rfl

theorem flattenUpTo_succ {S F : Type} (P : Platform S F) (U cellC : List (vector S))
    (ub cb : List F) (i : Nat) :
    flattenUpTo P U cellC ub cb (i + 1)
      = (flattenUpTo P U cellC ub cb i).bind (fun st => flattenBody P U cellC st i) := by
  simp [flattenUpTo, List.range_succ, List.foldlM_append]

theorem flattenBody_closed {S F : Type} (P : Platform S F) (U cellC : List (vector S))
    (ub cb : List F) (i : Nat) (hU : i < U.length) (hC : i < cellC.length)
    (hu : 3 * (i + 1) ≤ ub.length) (hc : 3 * (i + 1) ≤ cb.length)
    (hi : 3 * (i + 1) ≤ INT_MAX) :
    flattenBody P U cellC
        ⟨3 * i, interleaved P (U.take i) ++ ub.drop (3 * i),
          interleaved P (cellC.take i) ++ cb.drop (3 * i),
          List.range (3 * i), List.range (3 * i)⟩ i
      = some ⟨3 * (i + 1), interleaved P (U.take (i + 1)) ++ ub.drop (3 * (i + 1)),
          interleaved P (cellC.take (i + 1)) ++ cb.drop (3 * (i + 1)),
          List.range (3 * (i + 1)), List.range (3 * (i + 1))⟩ := by
  have hA : (interleaved P (U.take i)).length = 3 * i := by
    rw [interleaved_length, List.length_take]; omega
  have hB : (interleaved P (cellC.take i)).length = 3 * i := by
    rw [interleaved_length, List.length_take]; omega
  have e1 := storePair_closed P (cellC[i]).x (U[i]).x _ _ ub cb (3 * i) hA hB
    (by omega) (by omega) (by omega)
  have e2 := storePair_closed P (cellC[i]).y (U[i]).y
    (interleaved P (U.take i) ++ [P.narrow (U[i]).x])
    (interleaved P (cellC.take i) ++ [P.narrow (cellC[i]).x]) ub cb (3 * i + 1)
    (by simp [hA]) (by simp [hB]) (by omega) (by omega) (by omega)
  have e3 := storePair_closed P (cellC[i]).z (U[i]).z
    (interleaved P (U.take i) ++ [P.narrow (U[i]).x] ++ [P.narrow (U[i]).y])
    (interleaved P (cellC.take i) ++ [P.narrow (cellC[i]).x] ++ [P.narrow (cellC[i]).y])
    ub cb (3 * i + 1 + 1)
    (by simp [hA]) (by simp [hB]) (by omega) (by omega) (by omega)
  have tU : interleaved P (U.take (i + 1))
      = interleaved P (U.take i) ++ [P.narrow (U[i]).x] ++ [P.narrow (U[i]).y]
          ++ [P.narrow (U[i]).z] := by
    rw [List.take_succ, interleaved_append, List.getElem?_eq_getElem hU]
    simp [interleaved]
  have tC : interleaved P (cellC.take (i + 1))
      = interleaved P (cellC.take i) ++ [P.narrow (cellC[i]).x] ++ [P.narrow (cellC[i]).y]
          ++ [P.narrow (cellC[i]).z] := by
    rw [List.take_succ, interleaved_append, List.getElem?_eq_getElem hC]
    simp [interleaved]
  have h3 : 3 * (i + 1) = 3 * i + 1 + 1 + 1 := by omega
  simp only [flattenBody, List.getElem?_eq_getElem hU, List.getElem?_eq_getElem hC,
    Option.bind_eq_bind, Option.some_bind, e1, e2, e3, tU, tC, h3]

theorem flattenUpTo_closed {S F : Type} (P : Platform S F) (U cellC : List (vector S))
    (ub cb : List F) (i : Nat) (hU : i ≤ U.length) (hC : i ≤ cellC.length)
    (hu : 3 * i ≤ ub.length) (hc : 3 * i ≤ cb.length) (hi : 3 * i ≤ INT_MAX) :
    flattenUpTo P U cellC ub cb i
      = some ⟨3 * i, interleaved P (U.take i) ++ ub.drop (3 * i),
          interleaved P (cellC.take i) ++ cb.drop (3 * i),
          List.range (3 * i), List.range (3 * i)⟩ := by
  induction i with
  | zero => simp [flattenUpTo, interleaved]
  | succ i ih =>
    rw [flattenUpTo_succ, ih (by omega) (by omega) (by omega) (by omega) (by omega)]
    exact flattenBody_closed P U cellC ub cb i (by omega) (by omega) hu hc hi

theorem flattenUpTo_beyond {S F : Type} (P : Platform S F) (U cellC : List (vector S))
    (ub cb : List F) (k : Nat) (hk : cellC.length < k) :
    flattenUpTo P U cellC ub cb k = none := by
  obtain ⟨j, rfl⟩ : ∃ j, k = j + 1 := ⟨k - 1, by omega⟩
  rw [flattenUpTo_succ]
  have hnone : cellC[j]? = none := List.getElem?_eq_none (by omega)
  cases h : flattenUpTo P U cellC ub cb j with
  | none => rfl
  | some st =>
    simp only [Option.some_bind, Option.bind_eq_bind, flattenBody, hnone]
    cases U[j]? <;> rfl

theorem refill_length {S F : Type} (P : Platform S F) (vs : List (vector S)) (old : List F)
    (h : 3 * vs.length ≤ old.length) : (refill P vs old).length = old.length := by
  simp [refill, interleaved_length]; omega

theorem refill_full {S F : Type} (P : Platform S F) (vs : List (vector S)) (old : List F)
    (h : old.length = 3 * vs.length) : refill P vs old = interleaved P vs := by
  simp [refill, List.drop_eq_nil_of_le (le_of_eq h)]

theorem refill_take {S F : Type} (P : Platform S F) (vs : List (vector S)) (old : List F) :
    (refill P vs old).take (3 * vs.length) = interleaved P vs := by
  rw [refill, List.take_left' (interleaved_length P vs)]

theorem flatten_some {S F : Type} (P : Platform S F) (U cellC : List (vector S))
    (ub cb : List F) (hC : U.length ≤ cellC.length) (hu : 3 * U.length ≤ ub.length)
    (hc : 3 * U.length ≤ cb.length) (hi : 3 * U.length ≤ INT_MAX) :
    flatten P U cellC ub cb
      = some ⟨3 * U.length, refill P U ub, refill P (cellC.take U.length) cb,
          List.range (3 * U.length), List.range (3 * U.length)⟩ := by
  rw [flatten, flattenUpTo_closed P U cellC ub cb U.length le_rfl hC hu hc hi]
  simp [refill, List.length_take, Nat.min_eq_left hC]

theorem flatten_none {S F : Type} (P : Platform S F) (U cellC : List (vector S))
    (ub cb : List F) (h : cellC.length < U.length) : flatten P U cellC ub cb = none :=
  flattenUpTo_beyond P U cellC ub cb U.length h

/-! ## C10: the write index of the flattening loop -/

/-- C10. In the flattening loop, for `n` cells with `3 * n` representable in an `int`, fields
`U` and `cellC` of exactly `n` vectors and two buffers of capacity `3 * n`: the state before
the iteration for cell `i` exists and has `idx = 3 * i`; the loop ends with `idx = 3 * n`;
every index stored into either buffer is below `3 * n`, each index below `3 * n` is stored
exactly once in each buffer; and the buffers then hold the interleaved components of the
two fields only, whatever they held before. -/
theorem C10_flatten_index {S F : Type} (P : Platform S F) (n : Nat) (U cellC : List (vector S))
    (U_flat cellC_flat : List F) (hn : 3 * n ≤ INT_MAX) (hU : U.length = n)
    (hC : cellC.length = n) (hub : U_flat.length = 3 * n) (hcb : cellC_flat.length = 3 * n) :
    (∀ i, i ≤ n → ∃ st, flattenUpTo P U cellC U_flat cellC_flat i = some st ∧ st.idx = 3 * i)
    ∧ ∃ fin, flatten P U cellC U_flat cellC_flat = some fin ∧ fin.idx = 3 * n
      ∧ (∀ k ∈ fin.storedU, k < 3 * n) ∧ (∀ k ∈ fin.storedC, k < 3 * n)
      ∧ (∀ k, k < 3 * n → fin.storedU.count k = 1)
      ∧ (∀ k, k < 3 * n → fin.storedC.count k = 1)
      ∧ fin.U_flat = interleaved P U ∧ fin.cellC_flat = interleaved P cellC := by
  subst hU
  constructor
  · intro i hi
    exact ⟨_, flattenUpTo_closed P U cellC U_flat cellC_flat i hi (by omega) (by omega)
      (by omega) (by omega), rfl⟩
  · refine ⟨_, flatten_some P U cellC U_flat cellC_flat (by omega) (by omega) (by omega)
      (by omega), rfl, ?_, ?_, ?_, ?_, ?_, ?_⟩
    · intro k hk; exact List.mem_range.1 hk
    · intro k hk; exact List.mem_range.1 hk
    · intro k hk
      exact List.count_eq_one_of_mem (List.nodup_range _) (List.mem_range.2 hk)
    · intro k hk
      exact List.count_eq_one_of_mem (List.nodup_range _) (List.mem_range.2 hk)
    · exact refill_full P U U_flat hub
    · have ht : cellC.take U.length = cellC := List.take_of_length_le (le_of_eq hC)
      show refill P (cellC.take U.length) cellC_flat = interleaved P cellC
      rw [ht]
      exact refill_full P cellC cellC_flat (by omega)

/-- C10 at two cells, with buffers that still hold the values `[9, 9, 9, 9, 9, 9]`. -/
theorem C10_flatten_index_witness :
    3 * 2 ≤ INT_MAX ∧ (∀ i, i ≤ 2 → ∃ st, flattenUpTo PZ [⟨1, 2, 3⟩, ⟨4, 5, 6⟩] [⟨10, 20, 30⟩, ⟨40, 50, 60⟩]
        [9, 9, 9, 9, 9, 9] [9, 9, 9, 9, 9, 9] i = some st ∧ st.idx = 3 * i)
    ∧ ∃ fin, flatten PZ [⟨1, 2, 3⟩, ⟨4, 5, 6⟩] [⟨10, 20, 30⟩, ⟨40, 50, 60⟩]
        [9, 9, 9, 9, 9, 9] [9, 9, 9, 9, 9, 9] = some fin ∧ fin.idx = 3 * 2
      ∧ (∀ k ∈ fin.storedU, k < 3 * 2) ∧ (∀ k ∈ fin.storedC, k < 3 * 2)
      ∧ (∀ k, k < 3 * 2 → fin.storedU.count k = 1)
      ∧ (∀ k, k < 3 * 2 → fin.storedC.count k = 1)
      ∧ fin.U_flat = interleaved PZ [⟨1, 2, 3⟩, ⟨4, 5, 6⟩]
      ∧ fin.cellC_flat = interleaved PZ [⟨10, 20, 30⟩, ⟨40, 50, 60⟩] :=
  ⟨by decide, C10_flatten_index PZ 2 [⟨1, 2, 3⟩, ⟨4, 5, 6⟩] [⟨10, 20, 30⟩, ⟨40, 50, 60⟩]
    [9, 9, 9, 9, 9, 9] [9, 9, 9, 9, 9, 9] (by decide) rfl rfl rfl rfl⟩

/-! ## File names, disk and log -/

theorem U_name_ne_cellC_name (T T1 : String) : U_name T ≠ cellC_name T1 := by
  intro h
  have := congrArg String.data h
  simp [U_name, cellC_name, String.data_append] at this

theorem U_name_injective (T T1 : String) (h : U_name T = U_name T1) : T = T1 := by
  have := congrArg String.data h
  simp [U_name, String.data_append] at this
  exact String.ext this

theorem cellC_name_injective (T T1 : String) (h : cellC_name T = cellC_name T1) : T = T1 := by
  have := congrArg String.data h
  simp [cellC_name, String.data_append] at this
  exact String.ext this

theorem mem_outputNames (ts : List instant) (f : String) :
    f ∈ outputNames ts ↔ ∃ t ∈ ts, f = U_name t.name ∨ f = cellC_name t.name := by
  induction ts with
  | nil => simp [outputNames]
  | cons t ts ih =>
    simp only [outputNames, List.mem_cons, ih]
    constructor
    · rintro (h | h | ⟨t1, ht1, h⟩)
      · exact ⟨t, Or.inl rfl, Or.inl h⟩
      · exact ⟨t, Or.inl rfl, Or.inr h⟩
      · exact ⟨t1, Or.inr ht1, h⟩
    · rintro ⟨t1, rfl | ht1, h⟩
      · rcases h with h | h
        · exact Or.inl h
        · exact Or.inr (Or.inl h)
      · exact Or.inr (Or.inr ⟨t1, ht1, h⟩)

theorem outputNames_length (ts : List instant) : (outputNames ts).length = 2 * ts.length := by
  induction ts with
  | nil => rfl
  | cons t ts ih => simp [outputNames, ih]; omega

theorem outputNames_nodup (ts : List instant) (h : (ts.map (fun t => t.name)).Nodup) :
    (outputNames ts).Nodup := by
  induction ts with
  | nil => simp [outputNames]
  | cons t ts ih =>
    simp only [List.map_cons, List.nodup_cons, List.mem_map, not_exists, not_and] at h
    simp only [outputNames, List.nodup_cons, List.mem_cons, mem_outputNames, not_or,
      not_exists, not_and]
    refine ⟨⟨U_name_ne_cellC_name _ _, ?_⟩, ?_, ih h.2⟩
    · intro t1 ht1
      exact ⟨fun h1 => h.1 t1 ht1 (U_name_injective _ _ h1).symm, U_name_ne_cellC_name _ _⟩
    · intro t1 ht1
      exact ⟨fun h1 => U_name_ne_cellC_name _ _ h1.symm,
        fun h1 => h.1 t1 ht1 (cellC_name_injective _ _ h1).symm⟩

theorem bytes_length {S F : Type} (P : Platform S F) (l : List F) :
    (P.bytes l).length = sizeofFloat * l.length := by
  induction l with
  | nil => rfl
  | cons f fs ih => simp [Platform.bytes, ih, sizeofFloat]; omega

theorem fwrite_length {F : Type} (env : Env) (name : String) (buf : List F) (count : Nat)
    (h : buf.length = count) :
    (fwrite env name buf count).length = min count (env.stored name count) := by
  simp [fwrite, List.length_take, h]

theorem fwrite_full {F : Type} (env : Env) (name : String) (buf : List F) (count : Nat)
    (h : buf.length = count) (hfull : count ≤ env.stored name count) :
    fwrite env name buf count = buf := by
  rw [fwrite, Nat.min_eq_left hfull]
  exact List.take_of_length_le (le_of_eq h)

theorem newArray_length {F : Type} (junk : Nat → F) (size : Nat) :
    (newArray junk size).length = size := by
  simp [newArray]

theorem readField_eq_some {S F : Type} (mesh : fvMesh S) (w : World S F) (time name : String)
    (U : List (vector S)) :
    readField mesh w time name = some U
      ↔ w.fields time name = some U ∧ U.length = mesh.nCells := by
  unfold readField
  cases h : w.fields time name with
  | none => simp
  | some V =>
    by_cases hl : V.length = mesh.nCells
    · simp only [hl, if_true, Option.some.injEq]
      constructor
      · rintro rfl; exact ⟨rfl, hl⟩
      · rintro ⟨rfl, _⟩; rfl
    · simp only [hl, if_false, Option.some.injEq]
      constructor
      · intro h1; cases h1
      · rintro ⟨rfl, h2⟩; exact absurd h2 hl

theorem readField_congr {S F : Type} (mesh : fvMesh S) (w1 w2 : World S F)
    (time name : String) (h : w1.fields time name = w2.fields time name) :
    readField mesh w1 time name = readField mesh w2 time name := by
  simp only [readField, h]

theorem writeFile_fields {S F : Type} (w : World S F) (name : String) (data : List F) :
    (w.writeFile name data).fields = w.fields := rfl

theorem writeField_cellC_U {S F : Type} (w : World S F) (time T : String)
    (val : List (vector S)) : (w.writeField time "cellC" val).fields T "U" = w.fields T "U" := by
  simp [World.writeField]

theorem writtenFiles_append {F : Type} (a b : List (Event F)) :
    writtenFiles (a ++ b) = writtenFiles a ++ writtenFiles b := by
  induction a with
  | nil => rfl
  | cons e a ih => cases e <;> simp [writtenFiles, ih]

theorem writtenFiles_eraseStored {F : Type} (l : List (Event F)) :
    writtenFiles (l.map Event.eraseStored) = writtenFiles l := by
  induction l with
  | nil => rfl
  | cons e l ih => cases e <;> simp [writtenFiles, Event.eraseStored, ih]

theorem mem_writtenFiles {F : Type} (log : List (Event F)) (i : Nat) (T file : String)
    (data : List F) (stored : Nat) (h : Event.wrote i T file data stored ∈ log) :
    file ∈ writtenFiles log := by
  induction log with
  | nil => simp at h
  | cons e log ih =>
    rcases List.mem_cons.1 h with rfl | h1
    · simp [writtenFiles]
    · have := ih h1
      cases e <;> simp [writtenFiles, this]

/-! ## One pass through the time loop, and the loop -/

theorem timeStep_cases {S F : Type} (P : Platform S F) (env : Env) (mesh : fvMesh S)
    (timei : Nat) (t : instant) (st : RunState S F) (hs : Sized mesh st)
    (hn : 3 * mesh.nCells ≤ INT_MAX) :
    (st.world.fields t.name "U" = none ∧
      timeStep P env mesh timei t st
        = .halt .fatalError
            ⟨st.U_flat, st.cellC_flat, st.world, st.log ++ [.readFailed timei t.name]⟩)
    ∨ (∃ U, st.world.fields t.name "U" = some U ∧ U.length ≠ mesh.nCells ∧
      timeStep P env mesh timei t st
        = .halt .fatalError
            ⟨st.U_flat, st.cellC_flat, st.world, st.log ++ [.readFailed timei t.name]⟩)
    ∨ (∃ U, st.world.fields t.name "U" = some U ∧ U.length = mesh.nCells ∧
      env.canOpen (U_name t.name) = false ∧
      timeStep P env mesh timei t st
        = .halt (.exit 1)
            ⟨refill P U st.U_flat, refill P (mesh.C.take U.length) st.cellC_flat, st.world,
              st.log ++ [.openFailed timei t.name (U_name t.name)]⟩)
    ∨ (∃ U, st.world.fields t.name "U" = some U ∧ U.length = mesh.nCells ∧
      env.canOpen (U_name t.name) = true ∧ env.canOpen (cellC_name t.name) = false ∧
      timeStep P env mesh timei t st
        = .halt (.exit 1)
            ⟨refill P U st.U_flat, refill P (mesh.C.take U.length) st.cellC_flat,
              st.world.writeFile (U_name t.name)
                (fwrite env (U_name t.name) (refill P U st.U_flat) (3 * mesh.nCells)),
              st.log ++ [.wrote timei t.name (U_name t.name) (refill P U st.U_flat)
                  (fwrite env (U_name t.name) (refill P U st.U_flat)
                    (3 * mesh.nCells)).length,
                .openFailed timei t.name (cellC_name t.name)]⟩)
    ∨ (∃ U, st.world.fields t.name "U" = some U ∧ U.length = mesh.nCells ∧
      env.canOpen (U_name t.name) = true ∧ env.canOpen (cellC_name t.name) = true ∧
      timeStep P env mesh timei t st
        = .next
            ⟨refill P U st.U_flat, refill P (mesh.C.take U.length) st.cellC_flat,
              ((st.world.writeFile (U_name t.name)
                (fwrite env (U_name t.name) (refill P U st.U_flat) (3 * mesh.nCells))).writeFile
                (cellC_name t.name)
                (fwrite env (cellC_name t.name)
                  (refill P (mesh.C.take U.length) st.cellC_flat)
                  (3 * mesh.nCells))).writeField t.name "cellC" mesh.C,
              st.log ++ [.wrote timei t.name (U_name t.name) (refill P U st.U_flat)
                  (fwrite env (U_name t.name) (refill P U st.U_flat)
                    (3 * mesh.nCells)).length,
                .wrote timei t.name (cellC_name t.name)
                  (refill P (mesh.C.take U.length) st.cellC_flat)
                  (fwrite env (cellC_name t.name)
                    (refill P (mesh.C.take U.length) st.cellC_flat)
                    (3 * mesh.nCells)).length,
                .fieldWritten timei t.name]⟩) := by
  obtain ⟨hsU, hsC⟩ := hs
  cases hf0 : st.world.fields t.name "U" with
  | none =>
    left
    have hf : readField mesh st.world t.name "U" = none := by simp [readField, hf0]
    simp [timeStep, hf]
  | some U =>
    right
    by_cases hlen : U.length = mesh.nCells
    · right
      have hf : readField mesh st.world t.name "U" = some U := by simp [readField, hf0, hlen]
      have hfl := flatten_some P U mesh.C st.U_flat st.cellC_flat (le_of_eq hlen)
        (by rw [hsU]; omega) (by rw [hsC]; omega) (by omega)
      have hlu : (refill P U st.U_flat).length = 3 * mesh.nCells := by
        rw [refill_length _ _ _ (by rw [hsU]; omega), hsU]
      have hlc : (refill P (mesh.C.take U.length) st.cellC_flat).length = 3 * mesh.nCells := by
        have : (mesh.C.take U.length).length = U.length := by
          rw [List.length_take]; exact Nat.min_eq_left (le_of_eq hlen)
        rw [refill_length _ _ _ (by rw [this, hsC]; omega), hsC]
      have htu : (refill P U st.U_flat).take (3 * mesh.nCells) = refill P U st.U_flat :=
        List.take_of_length_le (le_of_eq hlu)
      have htc : (refill P (mesh.C.take U.length) st.cellC_flat).take (3 * mesh.nCells)
          = refill P (mesh.C.take U.length) st.cellC_flat :=
        List.take_of_length_le (le_of_eq hlc)
      cases hoU : env.canOpen (U_name t.name) with
      | false =>
        left
        refine ⟨U, rfl, hlen, rfl, ?_⟩
        simp [timeStep, hf, hfl, hoU]
      | true =>
        right
        cases hoC : env.canOpen (cellC_name t.name) with
        | false =>
          left
          refine ⟨U, rfl, hlen, rfl, rfl, ?_⟩
          simp [timeStep, hf, hfl, hoU, hoC, htu]
        | true =>
          right
          refine ⟨U, rfl, hlen, rfl, rfl, ?_⟩
          simp [timeStep, hf, hfl, hoU, hoC, htu, htc]
    · left
      have hf : readField mesh st.world t.name "U" = none := by simp [readField, hf0, hlen]
      refine ⟨U, rfl, hlen, ?_⟩
      simp [timeStep, hf]

/-- A step whose field loads, with its `n` vectors, and whose two destinations open goes
on to the next step; it rewrites the two files of its time and nothing else on the working
directory, and leaves every field `U` as it was. -/
theorem timeStep_next_spec {S F : Type} (P : Platform S F) (env : Env) (mesh : fvMesh S)
    (hn : 3 * mesh.nCells ≤ INT_MAX) (i : Nat) (t : instant) (st : RunState S F)
    (hs : Sized mesh st) (U : List (vector S)) (hU : st.world.fields t.name "U" = some U)
    (hl : U.length = mesh.nCells) (hoU : env.canOpen (U_name t.name) = true)
    (hoC : env.canOpen (cellC_name t.name) = true) :
    ∃ st1, timeStep P env mesh i t st = .next st1 ∧ Sized mesh st1
      ∧ (∀ T, st1.world.fields T "U" = st.world.fields T "U")
      ∧ writtenFiles st1.log = writtenFiles st.log ++ [U_name t.name, cellC_name t.name]
      ∧ st1.world.files (U_name t.name)
          = some (fwrite env (U_name t.name) (refill P U st.U_flat) (3 * mesh.nCells))
      ∧ st1.world.files (cellC_name t.name)
          = some (fwrite env (cellC_name t.name)
              (refill P (mesh.C.take U.length) st.cellC_flat) (3 * mesh.nCells))
      ∧ (∀ f, f ≠ U_name t.name → f ≠ cellC_name t.name →
          st1.world.files f = st.world.files f) := by
  have hsU := hs.1
  have hsC := hs.2
  rcases timeStep_cases P env mesh i t st hs hn with
    ⟨h0, _⟩ | ⟨U1, h0, h1, _⟩ | ⟨U1, _, _, h0, _⟩ | ⟨U1, _, _, _, h0, _⟩ | ⟨U1, h0, _, _, _, h⟩
  · rw [hU] at h0; cases h0
  · rw [hU] at h0; cases h0; exact absurd hl h1
  · rw [hoU] at h0; cases h0
  · rw [hoC] at h0; cases h0
  · rw [hU] at h0; cases h0
    have hlu : (refill P U st.U_flat).length = 3 * mesh.nCells := by
      rw [refill_length _ _ _ (by rw [hsU]; omega), hsU]
    have hlt : (mesh.C.take U.length).length = U.length := by
      rw [List.length_take]; exact Nat.min_eq_left hl.le
    have hlc : (refill P (mesh.C.take U.length) st.cellC_flat).length = 3 * mesh.nCells := by
      rw [refill_length _ _ _ (by rw [hlt, hsC]; omega), hsC]
    refine ⟨_, h, ⟨hlu, hlc⟩, ?_, ?_, ?_, ?_, ?_⟩
    · intro T
      rw [writeField_cellC_U, writeFile_fields, writeFile_fields]
    · simp [writtenFiles_append, writtenFiles]
    · simp [World.writeField, World.writeFile, U_name_ne_cellC_name]
    · simp [World.writeField, World.writeFile]
    · intro f h1 h2
      simp [World.writeField, World.writeFile, h1, h2]

theorem timeStep_halt_ne {S F : Type} (P : Platform S F) (env : Env) (mesh : fvMesh S)
    (i : Nat) (t : instant) (st st1 : RunState S F) (o : Outcome)
    (h : timeStep P env mesh i t st = .halt o st1) : o ≠ .exit 0 := by
  cases hf : readField mesh st.world t.name "U" with
  | none => simp only [timeStep, hf] at h; cases h; simp
  | some U =>
    cases hfl : flatten P U mesh.C st.U_flat st.cellC_flat with
    | none => simp only [timeStep, hf, hfl] at h; cases h; simp
    | some ls =>
      cases hoU : env.canOpen (U_name t.name) with
      | false => simp [timeStep, hf, hfl, hoU] at h; rw [← h.1]; simp
      | true =>
        cases hoC : env.canOpen (cellC_name t.name) with
        | false => simp [timeStep, hf, hfl, hoU, hoC] at h; rw [← h.1]; simp
        | true => simp [timeStep, hf, hfl, hoU, hoC] at h

theorem timeLoop_halt_ne {S F : Type} (P : Platform S F) (env : Env) (mesh : fvMesh S)
    (ts : List instant) : ∀ (i : Nat) (st st1 : RunState S F) (o : Outcome),
    timeLoop P env mesh i ts st = .halt o st1 → o ≠ .exit 0 := by
  induction ts with
  | nil => intro i st st1 o h; simp [timeLoop] at h
  | cons t ts ih =>
    intro i st st1 o h
    cases hstep : timeStep P env mesh i t st with
    | next st2 =>
      simp only [timeLoop, hstep] at h
      exact ih _ _ _ _ h
    | halt o2 st2 =>
      simp only [timeLoop, hstep] at h
      cases h
      exact timeStep_halt_ne P env mesh i t st st1 o hstep

theorem timeLoop_induct {S F : Type} (P : Platform S F) (env : Env) (mesh : fvMesh S)
    (Inv : Nat → RunState S F → Prop) (Q : Outcome → RunState S F → Prop)
    (hnext : ∀ i t st st1, Inv i st → timeStep P env mesh i t st = .next st1 → Inv (i + 1) st1)
    (hhalt : ∀ i t st o st1, Inv i st → timeStep P env mesh i t st = .halt o st1 → Q o st1)
    (ts : List instant) :
    ∀ (i : Nat) (st : RunState S F), Inv i st →
      match timeLoop P env mesh i ts st with
      | .next st1 => Inv (i + ts.length) st1
      | .halt o st1 => Q o st1 := by
  induction ts with
  | nil => intro i st h; simpa [timeLoop] using h
  | cons t ts ih =>
    intro i st h
    cases hstep : timeStep P env mesh i t st with
    | next st1 =>
      have h1 := hnext i t st st1 h hstep
      have h2 := ih (i + 1) st1 h1
      simp only [timeLoop, hstep]
      have e : i + (t :: ts).length = i + 1 + ts.length := by simp; omega
      rw [e]
      exact h2
    | halt o st1 =>
      simp only [timeLoop, hstep]
      exact hhalt i t st o st1 h hstep

theorem meshBig_nCells : meshBig.nCells = 715827883 := by
  simp only [fvMesh.nCells, meshBig, List.length_replicate]

theorem main_overflow {S F : Type} (P : Platform S F) (env : Env) (timeDirs : List instant)
    (mesh : fvMesh S) (junkU junkC : Nat → F) (w : World S F)
    (hn : ¬ 3 * mesh.nCells ≤ INT_MAX) :
    main P env (some timeDirs) mesh junkU junkC w = ⟨.undefined, w, []⟩ := by
  simp only [main, hn, if_false]

theorem main_of_next {S F : Type} (P : Platform S F) (env : Env) (timeDirs : List instant)
    (mesh : fvMesh S) (junkU junkC : Nat → F) (w : World S F) (st1 : RunState S F)
    (hn : 3 * mesh.nCells ≤ INT_MAX)
    (h : timeLoop P env mesh 0 timeDirs
      ⟨newArray junkU (3 * mesh.nCells), newArray junkC (3 * mesh.nCells), w, []⟩ = .next st1) :
    main P env (some timeDirs) mesh junkU junkC w = ⟨.exit 0, st1.world, st1.log⟩ := by
  simp only [main, hn, if_true, h]

theorem main_of_halt {S F : Type} (P : Platform S F) (env : Env) (timeDirs : List instant)
    (mesh : fvMesh S) (junkU junkC : Nat → F) (w : World S F) (st1 : RunState S F)
    (o : Outcome) (hn : 3 * mesh.nCells ≤ INT_MAX)
    (h : timeLoop P env mesh 0 timeDirs
      ⟨newArray junkU (3 * mesh.nCells), newArray junkC (3 * mesh.nCells), w, []⟩
        = .halt o st1) :
    main P env (some timeDirs) mesh junkU junkC w = ⟨o, st1.world, st1.log⟩ := by
  simp only [main, hn, if_true, h]

theorem main_exit0_inv {S F : Type} (P : Platform S F) (env : Env) (timeDirs : List instant)
    (mesh : fvMesh S) (junkU junkC : Nat → F) (w : World S F)
    (h : (main P env (some timeDirs) mesh junkU junkC w).outcome = .exit 0) :
    3 * mesh.nCells ≤ INT_MAX ∧ ∃ st1, timeLoop P env mesh 0 timeDirs
      ⟨newArray junkU (3 * mesh.nCells), newArray junkC (3 * mesh.nCells), w, []⟩
        = .next st1 := by
  by_cases hn : 3 * mesh.nCells ≤ INT_MAX
  · refine ⟨hn, ?_⟩
    cases hloop : timeLoop P env mesh 0 timeDirs
      ⟨newArray junkU (3 * mesh.nCells), newArray junkC (3 * mesh.nCells), w, []⟩ with
    | next st1 => exact ⟨st1, rfl⟩
    | halt o st1 =>
      rw [main_of_halt P env timeDirs mesh junkU junkC w st1 o hn hloop] at h
      exact absurd h (timeLoop_halt_ne P env mesh timeDirs _ _ _ _ hloop)
  · simp [main, hn] at h

/-! ## What the run writes -/

/-- Every event of a step taken from a state with buffers of capacity `3 * n` and with
good events only is good, and the step keeps the capacity and the fields `U`. -/
theorem timeStep_good {S F : Type} (P : Platform S F) (env : Env) (mesh : fvMesh S)
    (w0 : World S F) (hn : 3 * mesh.nCells ≤ INT_MAX) (i : Nat) (t : instant)
    (st : RunState S F) (hs : Sized mesh st)
    (hf : ∀ T, st.world.fields T "U" = w0.fields T "U")
    (hg : ∀ e ∈ st.log, GoodEvent P env mesh w0 e) :
    match timeStep P env mesh i t st with
    | .next st1 => Sized mesh st1 ∧ (∀ T, st1.world.fields T "U" = w0.fields T "U")
        ∧ ∀ e ∈ st1.log, GoodEvent P env mesh w0 e
    | .halt _ st1 => ∀ e ∈ st1.log, GoodEvent P env mesh w0 e := by
  have hsU := hs.1
  have hsC := hs.2
  rcases timeStep_cases P env mesh i t st hs hn with
    ⟨_, h⟩ | ⟨U, _, _, h⟩ | ⟨U, hU, hl, _, h⟩ | ⟨U, hU, hl, _, _, h⟩ | ⟨U, hU, hl, _, _, h⟩
  · rw [h]
    intro e he
    rcases List.mem_append.1 he with he | he
    · exact hg e he
    · simp at he; subst he; trivial
  · rw [h]
    intro e he
    rcases List.mem_append.1 he with he | he
    · exact hg e he
    · simp at he; subst he; trivial
  · rw [h]
    intro e he
    rcases List.mem_append.1 he with he | he
    · exact hg e he
    · simp at he; subst he; trivial
  all_goals
    have hlu : (refill P U st.U_flat).length = 3 * mesh.nCells := by
      rw [refill_length _ _ _ (by rw [hsU]; omega), hsU]
    have hlt : (mesh.C.take U.length).length = U.length := by
      rw [List.length_take]; exact Nat.min_eq_left hl.le
    have hlc : (refill P (mesh.C.take U.length) st.cellC_flat).length = 3 * mesh.nCells := by
      rw [refill_length _ _ _ (by rw [hlt, hsC]; omega), hsC]
    have hU0 : w0.fields t.name "U" = some U := by rw [← hf]; exact hU
    have gU : GoodEvent P env mesh w0 (.wrote i t.name (U_name t.name) (refill P U st.U_flat)
        (fwrite env (U_name t.name) (refill P U st.U_flat) (3 * mesh.nCells)).length) :=
      ⟨U, hU0, hl, hlu, fwrite_length env _ _ _ hlu, Or.inl ⟨rfl, refill_take P U _⟩⟩
    have gC : GoodEvent P env mesh w0 (.wrote i t.name (cellC_name t.name)
        (refill P (mesh.C.take U.length) st.cellC_flat)
        (fwrite env (cellC_name t.name) (refill P (mesh.C.take U.length) st.cellC_flat)
          (3 * mesh.nCells)).length) :=
      ⟨U, hU0, hl, hlc, fwrite_length env _ _ _ hlc, Or.inr ⟨rfl, by
        have := refill_take P (mesh.C.take U.length) st.cellC_flat
        rwa [hlt] at this⟩⟩
    rw [h]
  · intro e he
    rcases List.mem_append.1 he with he | he
    · exact hg e he
    · simp at he
      rcases he with rfl | rfl
      · exact gU
      · trivial
  · refine ⟨⟨hlu, hlc⟩, ?_, ?_⟩
    · intro T
      rw [writeField_cellC_U, writeFile_fields, writeFile_fields]
      exact hf T
    · intro e he
      rcases List.mem_append.1 he with he | he
      · exact hg e he
      · simp at he
        rcases he with rfl | rfl | rfl
        · exact gU
        · exact gC
        · trivial

theorem main_log_good {S F : Type} (P : Platform S F) (env : Env)
    (sel : Option (List instant)) (mesh : fvMesh S) (junkU junkC : Nat → F) (w : World S F) :
    ∀ e ∈ (main P env sel mesh junkU junkC w).log, GoodEvent P env mesh w e := by
  cases sel with
  | none => intro e he; simp [main] at he
  | some timeDirs =>
    by_cases hn : 3 * mesh.nCells ≤ INT_MAX
    · have key := timeLoop_induct P env mesh
        (fun _ st => Sized mesh st ∧ (∀ T, st.world.fields T "U" = w.fields T "U")
          ∧ ∀ e ∈ st.log, GoodEvent P env mesh w e)
        (fun _ st => ∀ e ∈ st.log, GoodEvent P env mesh w e)
        (by
          intro i t st st1 hinv hstep
          have := timeStep_good P env mesh w hn i t st hinv.1 hinv.2.1 hinv.2.2
          rw [hstep] at this
          exact this)
        (by
          intro i t st o st1 hinv hstep
          have := timeStep_good P env mesh w hn i t st hinv.1 hinv.2.1 hinv.2.2
          rw [hstep] at this
          exact this)
        timeDirs 0
        ⟨newArray junkU (3 * mesh.nCells), newArray junkC (3 * mesh.nCells), w, []⟩
        ⟨⟨newArray_length _ _, newArray_length _ _⟩, fun _ => rfl, by simp⟩
      simp only [main, hn, if_true]
      cases hloop : timeLoop P env mesh 0 timeDirs
        ⟨newArray junkU (3 * mesh.nCells), newArray junkC (3 * mesh.nCells), w, []⟩ with
      | next st1 => rw [hloop] at key; exact key.2.2
      | halt o st1 => rw [hloop] at key; exact key
    · intro e he; simp [main, hn] at he

/-- Every file the run has written holds what `fwrite` stored of some `3 * n` floats. -/
theorem main_files_written {S F : Type} (P : Platform S F) (env : Env)
    (sel : Option (List instant)) (mesh : fvMesh S) (junkU junkC : Nat → F) (w : World S F) :
    ∀ f ∈ writtenFiles (main P env sel mesh junkU junkC w).log,
      ∃ data : List F, data.length = 3 * mesh.nCells
        ∧ (main P env sel mesh junkU junkC w).world.files f
            = some (fwrite env f data (3 * mesh.nCells)) := by
  cases sel with
  | none => intro f hf; simp [main, writtenFiles] at hf
  | some timeDirs =>
    by_cases hn : 3 * mesh.nCells ≤ INT_MAX
    swap
    · intro f hf; rw [main_overflow _ _ _ _ _ _ _ hn] at hf; simp [writtenFiles] at hf
    have step : ∀ (i : Nat) (t : instant) (st : RunState S F), Sized mesh st →
        (∀ f ∈ writtenFiles st.log, ∃ data : List F, data.length = 3 * mesh.nCells
          ∧ st.world.files f = some (fwrite env f data (3 * mesh.nCells))) →
        match timeStep P env mesh i t st with
        | .next st1 => Sized mesh st1 ∧ ∀ f ∈ writtenFiles st1.log, ∃ data : List F,
            data.length = 3 * mesh.nCells
              ∧ st1.world.files f = some (fwrite env f data (3 * mesh.nCells))
        | .halt _ st1 => ∀ f ∈ writtenFiles st1.log, ∃ data : List F,
            data.length = 3 * mesh.nCells
              ∧ st1.world.files f = some (fwrite env f data (3 * mesh.nCells)) := by
      intro i t st hs hinv
      have hsU := hs.1
      have hsC := hs.2
      rcases timeStep_cases P env mesh i t st hs hn with
        ⟨_, h⟩ | ⟨U, _, _, h⟩ | ⟨U, hU, hl, _, h⟩ | ⟨U, hU, hl, _, _, h⟩ | ⟨U, hU, hl, _, _, h⟩
      · rw [h]
        intro f hf
        simp only [writtenFiles_append, writtenFiles, List.append_nil] at hf
        exact hinv f hf
      · rw [h]
        intro f hf
        simp only [writtenFiles_append, writtenFiles, List.append_nil] at hf
        exact hinv f hf
      · rw [h]
        intro f hf
        simp only [writtenFiles_append, writtenFiles, List.append_nil] at hf
        exact hinv f hf
      all_goals
        have hlu : (refill P U st.U_flat).length = 3 * mesh.nCells := by
          rw [refill_length _ _ _ (by rw [hsU]; omega), hsU]
        have hlt : (mesh.C.take U.length).length = U.length := by
          rw [List.length_take]; exact Nat.min_eq_left hl.le
        have hlc : (refill P (mesh.C.take U.length) st.cellC_flat).length
            = 3 * mesh.nCells := by
          rw [refill_length _ _ _ (by rw [hlt, hsC]; omega), hsC]
        rw [h]
      · intro f hf
        simp only [writtenFiles_append, writtenFiles, List.mem_append, List.mem_singleton] at hf
        by_cases hfU : f = U_name t.name
        · subst hfU
          exact ⟨_, hlu, by simp [World.writeFile]⟩
        · rcases hf with hf | hf
          · obtain ⟨data, hd, hfile⟩ := hinv f hf
            exact ⟨data, hd, by simp [World.writeFile, hfU, hfile]⟩
          · exact absurd hf hfU
      · refine ⟨⟨hlu, hlc⟩, ?_⟩
        intro f hf
        simp only [writtenFiles_append, writtenFiles, List.mem_append, List.mem_cons,
          List.mem_singleton, List.not_mem_nil, or_false] at hf
        by_cases hfC : f = cellC_name t.name
        · subst hfC
          exact ⟨_, hlc, by simp [World.writeField, World.writeFile]⟩
        · by_cases hfU : f = U_name t.name
          · subst hfU
            exact ⟨_, hlu, by simp [World.writeField, World.writeFile, hfC]⟩
          · rcases hf with hf | hf | hf
            · obtain ⟨data, hd, hfile⟩ := hinv f hf
              exact ⟨data, hd, by simp [World.writeField, World.writeFile, hfU, hfC, hfile]⟩
            · exact absurd hf hfU
            · exact absurd hf hfC
    have key := timeLoop_induct P env mesh
      (fun _ st => Sized mesh st ∧ ∀ f ∈ writtenFiles st.log, ∃ data : List F,
        data.length = 3 * mesh.nCells
          ∧ st.world.files f = some (fwrite env f data (3 * mesh.nCells)))
      (fun _ st => ∀ f ∈ writtenFiles st.log, ∃ data : List F,
        data.length = 3 * mesh.nCells
          ∧ st.world.files f = some (fwrite env f data (3 * mesh.nCells)))
      (by
        intro i t st st1 hinv hstep
        have := step i t st hinv.1 hinv.2
        rw [hstep] at this
        exact this)
      (by
        intro i t st o st1 hinv hstep
        have := step i t st hinv.1 hinv.2
        rw [hstep] at this
        exact this)
      timeDirs 0
      ⟨newArray junkU (3 * mesh.nCells), newArray junkC (3 * mesh.nCells), w, []⟩
      ⟨⟨newArray_length _ _, newArray_length _ _⟩, by simp [writtenFiles]⟩
    cases hloop : timeLoop P env mesh 0 timeDirs
      ⟨newArray junkU (3 * mesh.nCells), newArray junkC (3 * mesh.nCells), w, []⟩ with
    | next st1 =>
      rw [hloop] at key
      rw [main_of_next P env timeDirs mesh junkU junkC w st1 hn hloop]
      exact key.2
    | halt o st1 =>
      rw [hloop] at key
      rw [main_of_halt P env timeDirs mesh junkU junkC w st1 o hn hloop]
      exact key

/-! ## C1 and C2: content and size of what each file is given -/

/-- C1. In every run, when `U` at time `T` holds exactly `n` vectors (`n` the number of cells
of the mesh) and `i < n`: the buffer handed to `fwrite` for `U_flat_T.bin` has at offset
`3 * i` the x-component of `U[i]`, at `3 * i + 1` its y-component, at `3 * i + 2` its
z-component, and the buffer handed to `fwrite` for `cellC_flat_T.bin` has at these offsets
the components of the cell centre `i` of the mesh, each narrowed to `float`. -/
theorem C1_layout {S F : Type} (P : Platform S F) (env : Env) (sel : Option (List instant))
    (mesh : fvMesh S) (junkU junkC : Nat → F) (w : World S F) (timei : Nat) (T file : String)
    (data : List F) (stored : Nat) (U : List (vector S)) (i : Nat)
    (hU : w.fields T "U" = some U) (hlen : U.length = mesh.nCells) (hi : i < mesh.nCells)
    (he : Event.wrote timei T file data stored ∈ (main P env sel mesh junkU junkC w).log) :
    (file = U_name T → ∃ u, U[i]? = some u ∧ data[3 * i]? = some (P.narrow u.x)
        ∧ data[3 * i + 1]? = some (P.narrow u.y) ∧ data[3 * i + 2]? = some (P.narrow u.z))
    ∧ (file = cellC_name T → ∃ c, mesh.C[i]? = some c ∧ data[3 * i]? = some (P.narrow c.x)
        ∧ data[3 * i + 1]? = some (P.narrow c.y) ∧ data[3 * i + 2]? = some (P.narrow c.z)) := by
  obtain ⟨U1, hU1, _, hdl, _, hor⟩ := main_log_good P env sel mesh junkU junkC w _ he
  rw [hU] at hU1
  cases hU1
  have hfull : data.take (3 * U.length) = data :=
    List.take_of_length_le (by rw [hdl, hlen])
  have hCt : mesh.C.take U.length = mesh.C :=
    List.take_of_length_le (by rw [hlen]; exact le_rfl)
  rw [hfull, hCt] at hor
  constructor
  · intro hfile
    rcases hor with ⟨_, hd⟩ | ⟨hc, _⟩
    · have hiU : i < U.length := by omega
      refine ⟨U[i], List.getElem?_eq_getElem hiU, ?_⟩
      rw [hd]
      exact interleaved_getElem P U i _ (List.getElem?_eq_getElem hiU)
    · exact absurd (hfile.symm.trans hc) (U_name_ne_cellC_name T T)
  · intro hfile
    rcases hor with ⟨hc, _⟩ | ⟨_, hd⟩
    · exact absurd (hc.symm.trans hfile) (U_name_ne_cellC_name T T)
    · have hiC : i < mesh.C.length := hi
      refine ⟨mesh.C[i], List.getElem?_eq_getElem hiC, ?_⟩
      rw [hd]
      exact interleaved_getElem P mesh.C i _ (List.getElem?_eq_getElem hiC)

/-- C1 on the scenario of the specification: two cells, `U = [(1, 2, 3), (4, 5, 6)]` at time
`0.1`; the buffer written to `U_flat_0.1.bin` is `[1, 2, 3, 4, 5, 6]`, and C1 gives its
entries for cell 1. -/
theorem C1_layout_witness :
    Event.wrote 0 "0.1" "U_flat_0.1.bin" [1, 2, 3, 4, 5, 6] 6
      ∈ (main PZ envOk (some [⟨"0.1"⟩]) mesh2 (fun _ => 0) (fun _ => 0) case2).log
    ∧ (∃ u, ([⟨1, 2, 3⟩, ⟨4, 5, 6⟩] : List (vector Int))[1]? = some u
        ∧ ([1, 2, 3, 4, 5, 6] : List Int)[3 * 1]? = some (PZ.narrow u.x)
        ∧ ([1, 2, 3, 4, 5, 6] : List Int)[3 * 1 + 1]? = some (PZ.narrow u.y)
        ∧ ([1, 2, 3, 4, 5, 6] : List Int)[3 * 1 + 2]? = some (PZ.narrow u.z)) :=
  ⟨by decide,
    (C1_layout PZ envOk (some [⟨"0.1"⟩]) mesh2 (fun _ => 0) (fun _ => 0) case2 0 "0.1"
      "U_flat_0.1.bin" [1, 2, 3, 4, 5, 6] 6 [⟨1, 2, 3⟩, ⟨4, 5, 6⟩] 1 (by decide) (by decide)
      (by decide) (by decide)).1 (by decide)⟩

/-- C2 as stated fails: both destinations of the time step `0.1` open, on a mesh of two
cells, and the C library stores only 2 of the 6 floats written to `U_flat_0.1.bin`: the
run returns 0 and the file holds 2 floats, 8 bytes, not `12 * n = 24` bytes. -/
theorem C2_counterexample :
    envShort.canOpen (U_name "0.1") = true ∧ envShort.canOpen (cellC_name "0.1") = true
    ∧ (main PZ envShort (some [⟨"0.1"⟩]) mesh2 (fun _ => 0) (fun _ => 0) case2).outcome
        = .exit 0
    ∧ (main PZ envShort (some [⟨"0.1"⟩]) mesh2 (fun _ => 0) (fun _ => 0) case2).world.files
        (U_name "0.1") = some [1, 2]
    ∧ ((main PZ envShort (some [⟨"0.1"⟩]) mesh2 (fun _ => 0) (fun _ => 0)
        case2).world.fileBytes PZ (U_name "0.1")).map List.length = some 8
    ∧ 12 * mesh2.nCells = 24 := by
  refine ⟨by decide, by decide, by decide, by decide, by decide, by decide⟩

/-- C2, amended. In every run, every file that is opened is given by its one `fwrite` exactly
`3 * n` floats, that is `12 * n` bytes, whatever the fields hold; it is one of the two files
of its time step; the number of floats that reach it is the number the C library accepts;
and at the end of the run the file holds what the library stored of `3 * n` floats and
nothing else, so that it has exactly `12 * n` bytes when the library stores all it is
given. -/
theorem C2_size {S F : Type} (P : Platform S F) (env : Env) (sel : Option (List instant))
    (mesh : fvMesh S) (junkU junkC : Nat → F) (w : World S F) (timei : Nat) (T file : String)
    (data : List F) (stored : Nat)
    (he : Event.wrote timei T file data stored ∈ (main P env sel mesh junkU junkC w).log) :
    data.length = 3 * mesh.nCells ∧ (P.bytes data).length = 12 * mesh.nCells
    ∧ (file = U_name T ∨ file = cellC_name T)
    ∧ stored = min (3 * mesh.nCells) (env.stored file (3 * mesh.nCells))
    ∧ (∃ last : List F, last.length = 3 * mesh.nCells
        ∧ (main P env sel mesh junkU junkC w).world.files file
            = some (fwrite env file last (3 * mesh.nCells))
        ∧ (3 * mesh.nCells ≤ env.stored file (3 * mesh.nCells) →
            (main P env sel mesh junkU junkC w).world.files file = some last
            ∧ ((main P env sel mesh junkU junkC w).world.fileBytes P file).map List.length
                = some (12 * mesh.nCells))) := by
  obtain ⟨U1, _, _, hdl, hst, hor⟩ := main_log_good P env sel mesh junkU junkC w _ he
  obtain ⟨last, hll, hfile⟩ := main_files_written P env sel mesh junkU junkC w file
    (mem_writtenFiles _ _ _ _ _ _ he)
  refine ⟨hdl, ?_, ?_, hst, last, hll, hfile, ?_⟩
  · rw [bytes_length, hdl, sizeofFloat]; omega
  · rcases hor with ⟨h, _⟩ | ⟨h, _⟩
    · exact Or.inl h
    · exact Or.inr h
  · intro hfull
    rw [fwrite_full env file last _ hll hfull] at hfile
    refine ⟨hfile, ?_⟩
    rw [World.fileBytes, hfile]
    simp only [Option.map_some', bytes_length, hll, sizeofFloat]
    congr 1
    omega

/-- C2 (amended) on the scenario of the specification, with a C library that stores all it
is given: the file `cellC_flat_0.1.bin` of a mesh of two cells is given 6 floats, 24 bytes,
and holds 24 bytes at the end of the run. -/
theorem C2_size_witness :
    Event.wrote 0 "0.1" "cellC_flat_0.1.bin" [10, 20, 30, 40, 50, 60] 6
      ∈ (main PZ envOk (some [⟨"0.1"⟩]) mesh2 (fun _ => 0) (fun _ => 0) case2).log
    ∧ 3 * mesh2.nCells ≤ envOk.stored "cellC_flat_0.1.bin" (3 * mesh2.nCells)
    ∧ ([10, 20, 30, 40, 50, 60] : List Int).length = 3 * mesh2.nCells
    ∧ (PZ.bytes [10, 20, 30, 40, 50, 60]).length = 12 * mesh2.nCells
    ∧ ((main PZ envOk (some [⟨"0.1"⟩]) mesh2 (fun _ => 0) (fun _ => 0)
        case2).world.fileBytes PZ "cellC_flat_0.1.bin").map List.length
          = some (12 * mesh2.nCells) :=
  have h := C2_size PZ envOk (some [⟨"0.1"⟩]) mesh2 (fun _ => 0) (fun _ => 0) case2 0 "0.1"
    "cellC_flat_0.1.bin" [10, 20, 30, 40, 50, 60] 6 (by decide)
  ⟨by decide, by decide, h.1, h.2.1,
    match h.2.2.2.2 with
    | ⟨_, _, _, hfull⟩ => (hfull (by decide)).2⟩

/-! ## Runs in which every step succeeds -/

/-- The time loop over steps that all load their field and open their destinations. -/
theorem timeLoop_success {S F : Type} (P : Platform S F) (env : Env) (mesh : fvMesh S)
    (hn : 3 * mesh.nCells ≤ INT_MAX) (ts : List instant) :
    ∀ (i : Nat) (st : RunState S F), Sized mesh st →
      (∀ t ∈ ts, ∃ U, st.world.fields t.name "U" = some U ∧ U.length = mesh.nCells) →
      (∀ t ∈ ts, env.canOpen (U_name t.name) = true ∧ env.canOpen (cellC_name t.name) = true) →
      ∃ st1, timeLoop P env mesh i ts st = .next st1 ∧ Sized mesh st1
        ∧ (∀ T, st1.world.fields T "U" = st.world.fields T "U")
        ∧ writtenFiles st1.log = writtenFiles st.log ++ outputNames ts
        ∧ (∀ f, f ∉ outputNames ts → st1.world.files f = st.world.files f)
        ∧ (∀ f, f ∈ outputNames ts → st1.world.files f ≠ none)
        ∧ (∀ t ∈ ts, ∀ U, st.world.fields t.name "U" = some U → U.length = mesh.nCells →
            st1.world.files (U_name t.name)
              = some (fwrite env (U_name t.name) (interleaved P U) (3 * mesh.nCells))
            ∧ st1.world.files (cellC_name t.name)
              = some (fwrite env (cellC_name t.name) (interleaved P mesh.C)
                  (3 * mesh.nCells))) := by
  induction ts with
  | nil =>
    intro i st hs _ _
    exact ⟨st, rfl, hs, fun _ => rfl, by simp [outputNames], fun _ _ => rfl,
      by simp [outputNames], by simp⟩
  | cons t ts ih =>
    intro i st hs hU ho
    obtain ⟨U, hUt, hl⟩ := hU t (List.mem_cons_self _ _)
    obtain ⟨hoU, hoC⟩ := ho t (List.mem_cons_self _ _)
    obtain ⟨st1, hstep, hs1, hf1, hw1, hfU, hfC, hoth⟩ :=
      timeStep_next_spec P env mesh hn i t st hs U hUt hl hoU hoC
    obtain ⟨st2, hloop, hs2, hf2, hw2, hout, hin, hcont⟩ := ih (i + 1) st1 hs1
      (fun t1 ht1 => by
        obtain ⟨U1, h1, h2⟩ := hU t1 (List.mem_cons_of_mem _ ht1)
        exact ⟨U1, by rw [hf1]; exact h1, h2⟩)
      (fun t1 ht1 => ho t1 (List.mem_cons_of_mem _ ht1))
    refine ⟨st2, by simp only [timeLoop, hstep]; exact hloop, hs2,
      fun T => (hf2 T).trans (hf1 T), ?_, ?_, ?_, ?_⟩
    · rw [hw2, hw1]; simp [outputNames]
    · intro f hf
      simp only [outputNames, List.mem_cons, not_or] at hf
      rw [hout f hf.2.2]
      exact hoth f hf.1 hf.2.1
    · intro f hf
      by_cases hft : f ∈ outputNames ts
      · exact hin f hft
      · rw [hout f hft]
        simp only [outputNames, List.mem_cons] at hf
        rcases hf with rfl | rfl | hf
        · rw [hfU]; simp
        · rw [hfC]; simp
        · exact absurd hf hft
    · intro t1 ht1 U1 hU1 hfull
      by_cases hmem : ∃ t2 ∈ ts, t2.name = t1.name
      · obtain ⟨t2, ht2, he⟩ := hmem
        have := hcont t2 ht2 U1 (by rw [hf1, he]; exact hU1) hfull
        rw [he] at this
        exact this
      · simp only [not_exists, not_and] at hmem
        have ht : t1.name = t.name := by
          rcases List.mem_cons.1 ht1 with rfl | h
          · rfl
          · exact absurd rfl (hmem t1 h)
        rw [ht] at hU1 ⊢
        rw [hUt] at hU1
        cases hU1
        have hnU : U_name t.name ∉ outputNames ts := by
          rw [mem_outputNames]
          rintro ⟨t2, ht2, h | h⟩
          · exact hmem t2 ht2 ((U_name_injective _ _ h).symm.trans ht.symm)
          · exact U_name_ne_cellC_name _ _ h
        have hnC : cellC_name t.name ∉ outputNames ts := by
          rw [mem_outputNames]
          rintro ⟨t2, ht2, h | h⟩
          · exact U_name_ne_cellC_name _ _ h.symm
          · exact hmem t2 ht2 ((cellC_name_injective _ _ h).symm.trans ht.symm)
        have hCt : mesh.C.take U.length = mesh.C :=
          List.take_of_length_le (by rw [hfull]; exact le_rfl)
        rw [hout _ hnU, hout _ hnC, hfU, hfC, hCt, refill_full P U _ (by rw [hs.1, hfull]),
          refill_full P mesh.C _ (by rw [hs.2]; rfl)]
        exact ⟨rfl, rfl⟩

/-- The time loop reaches its end only if every step loads its field, of `n` vectors, and
opens both its destinations. -/
theorem timeLoop_next_inv {S F : Type} (P : Platform S F) (env : Env) (mesh : fvMesh S)
    (hn : 3 * mesh.nCells ≤ INT_MAX) (ts : List instant) :
    ∀ (i : Nat) (st st1 : RunState S F), Sized mesh st →
      timeLoop P env mesh i ts st = .next st1 →
      ∀ t ∈ ts, (∃ U, st.world.fields t.name "U" = some U ∧ U.length = mesh.nCells)
        ∧ env.canOpen (U_name t.name) = true ∧ env.canOpen (cellC_name t.name) = true := by
  induction ts with
  | nil => intro i st st1 _ _ t ht; simp at ht
  | cons t ts ih =>
    intro i st st1 hs hloop t1 ht1
    rcases timeStep_cases P env mesh i t st hs hn with
      ⟨_, h⟩ | ⟨U, _, _, h⟩ | ⟨U, _, _, _, h⟩ | ⟨U, _, _, _, _, h⟩ | ⟨U, hU, hl, hoU, hoC, h⟩
    · simp [timeLoop, h] at hloop
    · simp [timeLoop, h] at hloop
    · simp [timeLoop, h] at hloop
    · simp [timeLoop, h] at hloop
    · obtain ⟨st2, hstep, hs2, hf2, _⟩ :=
        timeStep_next_spec P env mesh hn i t st hs U hU hl hoU hoC
      simp only [timeLoop, hstep] at hloop
      rcases List.mem_cons.1 ht1 with rfl | h1
      · exact ⟨⟨U, hU, hl⟩, hoU, hoC⟩
      · have := ih (i + 1) st2 st1 hs2 hloop t1 h1
        obtain ⟨⟨U1, hU1, hl1⟩, r⟩ := this
        exact ⟨⟨U1, by rw [← hf2]; exact hU1, hl1⟩, r⟩

/-! ## C3: the files of a run in which everything succeeds -/

/-- C3 as stated fails. Every destination opens and the labels are distinct, yet: with no
field `U` at the selected time `0.5` the run ends in a fatal error of the field reader and
writes no file; so it does with a field `U` of three vectors at the selected time `0.4`, on
a mesh of two cells; and with a mesh of 715827883 cells (and a field `U` at time `0.1`) the
`int` product `3 * n` overflows, so that the run has no defined result, and no file is
written in this model. -/
theorem C3_counterexample :
    (∀ name, envOk.canOpen name = true)
    ∧ (([⟨"0.5"⟩] : List instant).map (fun t => t.name)).Nodup
    ∧ (main PZ envOk (some [⟨"0.5"⟩]) mesh2 (fun _ => 0) (fun _ => 0) case2).outcome
        = .fatalError
    ∧ writtenFiles (main PZ envOk (some [⟨"0.5"⟩]) mesh2 (fun _ => 0) (fun _ => 0) case2).log
        = []
    ∧ (main PZ envOk (some [⟨"0.4"⟩]) mesh2 (fun _ => 0) (fun _ => 0) case2).outcome
        = .fatalError
    ∧ writtenFiles (main PZ envOk (some [⟨"0.4"⟩]) mesh2 (fun _ => 0) (fun _ => 0) case2).log
        = []
    ∧ (main PZ envOk (some [⟨"0.1"⟩]) meshBig (fun _ => 0) (fun _ => 0) caseBig).outcome
        = .undefined
    ∧ writtenFiles
        (main PZ envOk (some [⟨"0.1"⟩]) meshBig (fun _ => 0) (fun _ => 0) caseBig).log = [] := by
  have hbig : ¬ 3 * meshBig.nCells ≤ INT_MAX := by rw [meshBig_nCells]; decide
  refine ⟨fun _ => rfl, by decide, by decide, by decide, by decide, by decide, ?_, ?_⟩
  · rw [main_overflow _ _ _ _ _ _ _ hbig]
  · rw [main_overflow _ _ _ _ _ _ _ hbig]; rfl

/-- C3, amended. For time steps with pairwise distinct labels, when `3 * n` fits an `int`,
the field `U` loads at every selected time step, and every destination opens: the run
returns exit code 0; the files it opens and writes are, in order, `U_flat_T.bin` then
`cellC_flat_T.bin` for each time step `T` in the order of the selector; these are `2 * k`
distinct names; each of them exists afterwards, and every other file of the working
directory is as it was. -/
theorem C3_files {S F : Type} (P : Platform S F) (env : Env) (timeDirs : List instant)
    (mesh : fvMesh S) (junkU junkC : Nat → F) (w : World S F)
    (hn : 3 * mesh.nCells ≤ INT_MAX)
    (hU : ∀ t ∈ timeDirs, ∃ U, readField mesh w t.name "U" = some U)
    (hopen : ∀ t ∈ timeDirs,
      env.canOpen (U_name t.name) = true ∧ env.canOpen (cellC_name t.name) = true)
    (hnodup : (timeDirs.map (fun t => t.name)).Nodup) :
    (main P env (some timeDirs) mesh junkU junkC w).outcome = .exit 0
    ∧ writtenFiles (main P env (some timeDirs) mesh junkU junkC w).log = outputNames timeDirs
    ∧ (outputNames timeDirs).Nodup
    ∧ (outputNames timeDirs).length = 2 * timeDirs.length
    ∧ (∀ f, f ∈ outputNames timeDirs →
        (main P env (some timeDirs) mesh junkU junkC w).world.files f ≠ none)
    ∧ (∀ f, f ∉ outputNames timeDirs →
        (main P env (some timeDirs) mesh junkU junkC w).world.files f = w.files f) := by
  obtain ⟨st1, hloop, _, _, hw, hout, hin, _⟩ := timeLoop_success P env mesh hn timeDirs 0
    ⟨newArray junkU (3 * mesh.nCells), newArray junkC (3 * mesh.nCells), w, []⟩
    ⟨newArray_length _ _, newArray_length _ _⟩
    (fun t ht => by
      obtain ⟨U, h⟩ := hU t ht
      exact ⟨U, (readField_eq_some mesh w t.name "U" U).1 h⟩)
    hopen
  rw [main_of_next P env timeDirs mesh junkU junkC w st1 hn hloop]
  refine ⟨rfl, ?_, outputNames_nodup timeDirs hnodup, outputNames_length timeDirs, hin, hout⟩
  simpa [writtenFiles] using hw

/-- C3 (amended) on the scenario of the specification: the labels `0.1` and `0.2` give
exactly `U_flat_0.1.bin`, `cellC_flat_0.1.bin`, `U_flat_0.2.bin`, `cellC_flat_0.2.bin`. -/
theorem C3_files_witness :
    outputNames [⟨"0.1"⟩, ⟨"0.2"⟩]
      = ["U_flat_0.1.bin", "cellC_flat_0.1.bin", "U_flat_0.2.bin", "cellC_flat_0.2.bin"]
    ∧ (main PZ envOk (some [⟨"0.1"⟩, ⟨"0.2"⟩]) mesh2 (fun _ => 0) (fun _ => 0) case2).outcome
        = .exit 0
    ∧ writtenFiles
        (main PZ envOk (some [⟨"0.1"⟩, ⟨"0.2"⟩]) mesh2 (fun _ => 0) (fun _ => 0) case2).log
        = outputNames [⟨"0.1"⟩, ⟨"0.2"⟩] :=
  have h := C3_files PZ envOk [⟨"0.1"⟩, ⟨"0.2"⟩] mesh2 (fun _ => 0) (fun _ => 0) case2
    (by decide)
    (by
      intro t ht
      simp only [List.mem_cons, List.mem_singleton, List.not_mem_nil, or_false] at ht
      rcases ht with rfl | rfl
      · exact ⟨[⟨1, 2, 3⟩, ⟨4, 5, 6⟩], by decide⟩
      · exact ⟨[⟨7, 8, 9⟩, ⟨10, 11, 12⟩], by decide⟩)
    (fun _ _ => ⟨rfl, rfl⟩) (by decide)
  ⟨by decide, h.1, h.2.1⟩

/-! ## C7: a selection that no time directory satisfies -/

theorem select0_ne_some_nil (criteria : instant → Bool) (times : List instant) :
    select0 criteria times ≠ some [] := by
  unfold select0
  cases times.filter criteria <;> simp

/-- C7. When no time directory of the case satisfies the selection criteria, so that the
selection resolves to no time step, the time selector fails with `NoMatchingTimes` (it
never hands `main` an empty list) and the run ends there with that fatal error, a failure
for its caller: no file has been opened or written, and the disk is as it was. -/
theorem C7_no_matching_times {S F : Type} (P : Platform S F) (env : Env)
    (criteria : instant → Bool) (times : List instant) (mesh : fvMesh S)
    (junkU junkC : Nat → F) (w : World S F) (h : times.filter criteria = []) :
    select0 criteria times = none
    ∧ select0 criteria times ≠ some []
    ∧ (main P env (select0 criteria times) mesh junkU junkC w).outcome = .fatalError
    ∧ (main P env (select0 criteria times) mesh junkU junkC w).outcome.nonZero
    ∧ (main P env (select0 criteria times) mesh junkU junkC w).log = []
    ∧ writtenFiles (main P env (select0 criteria times) mesh junkU junkC w).log = []
    ∧ (main P env (select0 criteria times) mesh junkU junkC w).world.files = w.files
    ∧ (main P env (select0 criteria times) mesh junkU junkC w).world.fields = w.fields := by
  have hsel : select0 criteria times = none := by simp [select0, h]
  refine ⟨hsel, select0_ne_some_nil criteria times, ?_⟩
  rw [hsel]
  simp [main, Outcome.nonZero, writtenFiles]

/-- C7 on a case with the time directories `0.1` and `0.2` and a selection of the time `9`:
no directory satisfies it, and the run ends with the fatal error of the selector. -/
theorem C7_no_matching_times_witness :
    ([⟨"0.1"⟩, ⟨"0.2"⟩] : List instant).filter (fun t => decide (t.name = "9")) = []
    ∧ (main PZ envOk (select0 (fun t => decide (t.name = "9")) [⟨"0.1"⟩, ⟨"0.2"⟩]) mesh2
        (fun _ => 0) (fun _ => 0) case2).outcome = .fatalError
    ∧ (main PZ envOk (select0 (fun t => decide (t.name = "9")) [⟨"0.1"⟩, ⟨"0.2"⟩]) mesh2
        (fun _ => 0) (fun _ => 0) case2).log = [] :=
  have h := C7_no_matching_times PZ envOk (fun t => decide (t.name = "9"))
    [⟨"0.1"⟩, ⟨"0.2"⟩] mesh2 (fun _ => 0) (fun _ => 0) case2 (by decide)
  ⟨by decide, h.2.2.1, h.2.2.2.2.1⟩

/-! ## C8: running the converter a second time -/

theorem timeStep_agree {S F : Type} (P : Platform S F) (env : Env) (mesh : fvMesh S)
    (i : Nat) (t : instant) (s1 s2 : RunState S F) (h : Agree s1 s2) :
    StepAgree (timeStep P env mesh i t s1) (timeStep P env mesh i t s2) := by
  obtain ⟨hU, hC, hf, hl, hfiles⟩ := h
  have hfiles2 : ∀ f ∈ writtenFiles s2.log, s1.world.files f = s2.world.files f := by
    rw [← hl]; exact hfiles
  have hrd : readField mesh s1.world t.name "U" = readField mesh s2.world t.name "U" :=
    readField_congr mesh s1.world s2.world t.name "U" (hf t.name)
  cases hf2 : readField mesh s2.world t.name "U" with
  | none =>
    have hf1 : readField mesh s1.world t.name "U" = none := by rw [hrd]; exact hf2
    simp only [timeStep, hf1, hf2, hl]
    dsimp only [StepAgree, Agree]
    refine ⟨rfl, hU, hC, hf, rfl, ?_⟩
    intro f hmem
    simp only [writtenFiles_append, writtenFiles, List.append_nil] at hmem
    exact hfiles2 f hmem
  | some U =>
    have hf1 : readField mesh s1.world t.name "U" = some U := by rw [hrd]; exact hf2
    cases hfl : flatten P U mesh.C s2.U_flat s2.cellC_flat with
    | none =>
      simp only [timeStep, hf1, hf2, hU, hC, hfl]
      dsimp only [StepAgree, Agree]
      exact ⟨rfl, hU, hC, hf, hl, hfiles⟩
    | some ls =>
      cases hoU : env.canOpen (U_name t.name) with
      | false =>
        simp only [timeStep, hf1, hf2, hU, hC, hfl, hoU, hl]
        dsimp only [StepAgree, Agree]
        refine ⟨rfl, rfl, rfl, hf, rfl, ?_⟩
        intro f hmem
        simp only [writtenFiles_append, writtenFiles, List.append_nil] at hmem
        exact hfiles2 f hmem
      | true =>
        cases hoC : env.canOpen (cellC_name t.name) with
        | false =>
          simp only [timeStep, hf1, hf2, hU, hC, hfl, hoU, hoC, hl]
          dsimp only [StepAgree, Agree]
          refine ⟨rfl, rfl, rfl, hf, rfl, ?_⟩
          intro f hmem
          simp only [writtenFiles_append, writtenFiles, List.mem_append,
            List.mem_singleton, List.append_nil] at hmem
          by_cases hfU : f = U_name t.name
          · simp [World.writeFile, hfU]
          · rcases hmem with hmem | hmem
            · have := hfiles2 f hmem
              simp [World.writeFile, hfU, this]
            · exact absurd hmem hfU
        | true =>
          simp only [timeStep, hf1, hf2, hU, hC, hfl, hoU, hoC, hl]
          dsimp only [StepAgree, Agree]
          refine ⟨rfl, rfl, ?_, rfl, ?_⟩
          · intro T
            simp only [writeField_cellC_U, writeFile_fields]
            exact hf T
          · intro f hmem
            simp only [writtenFiles_append, writtenFiles, List.mem_append, List.mem_cons,
              List.mem_singleton, List.not_mem_nil, or_false, List.append_nil] at hmem
            by_cases hfC : f = cellC_name t.name
            · simp [World.writeField, World.writeFile, hfC]
            · by_cases hfU : f = U_name t.name
              · simp [World.writeField, World.writeFile, hfU, U_name_ne_cellC_name]
              · rcases hmem with (hmem | hmem) | hmem
                · have := hfiles2 f hmem
                  simp [World.writeField, World.writeFile, hfU, hfC, this]
                · exact absurd hmem hfU
                · exact absurd hmem hfC

theorem timeLoop_agree {S F : Type} (P : Platform S F) (env : Env) (mesh : fvMesh S)
    (ts : List instant) : ∀ (i : Nat) (s1 s2 : RunState S F), Agree s1 s2 →
      StepAgree (timeLoop P env mesh i ts s1) (timeLoop P env mesh i ts s2) := by
  induction ts with
  | nil => intro i s1 s2 h; simpa [timeLoop, StepAgree] using h
  | cons t ts ih =>
    intro i s1 s2 h
    have hstep := timeStep_agree P env mesh i t s1 s2 h
    cases h1 : timeStep P env mesh i t s1 with
    | next a =>
      cases h2 : timeStep P env mesh i t s2 with
      | next b =>
        rw [h1, h2] at hstep
        simp only [timeLoop, h1, h2]
        exact ih (i + 1) a b hstep
      | halt o b => rw [h1, h2] at hstep; exact hstep.elim
    | halt o a =>
      cases h2 : timeStep P env mesh i t s2 with
      | next b => rw [h1, h2] at hstep; exact hstep.elim
      | halt o2 b =>
        rw [h1, h2] at hstep
        simp only [timeLoop, h1, h2]
        exact hstep

/-- After a first run that returned 0, a second run of the same selection on the disk the
first run left returns 0 as well, and the two files of a selected time step exist and have
the same content as after the first run, when the arrays of the second run start with the
memory content those of the first started with, and also, whatever that memory holds, when
the field `U` of the time step holds `n` vectors. -/
theorem second_run_files {S F : Type} (P : Platform S F) (env : Env) (timeDirs : List instant)
    (mesh : fvMesh S) (junkU junkC junkU2 junkC2 : Nat → F) (w : World S F) (t : instant)
    (h1 : (main P env (some timeDirs) mesh junkU junkC w).outcome = .exit 0)
    (ht : t ∈ timeDirs)
    (hcase : (junkU2 = junkU ∧ junkC2 = junkC)
      ∨ ∃ U, w.fields t.name "U" = some U ∧ U.length = mesh.nCells) :
    (main P env (some timeDirs) mesh junkU2 junkC2
        (main P env (some timeDirs) mesh junkU junkC w).world).outcome = .exit 0
    ∧ (main P env (some timeDirs) mesh junkU junkC w).world.files (U_name t.name) ≠ none
    ∧ (main P env (some timeDirs) mesh junkU junkC w).world.files (cellC_name t.name) ≠ none
    ∧ (main P env (some timeDirs) mesh junkU2 junkC2
        (main P env (some timeDirs) mesh junkU junkC w).world).world.files (U_name t.name)
      = (main P env (some timeDirs) mesh junkU junkC w).world.files (U_name t.name)
    ∧ (main P env (some timeDirs) mesh junkU2 junkC2
        (main P env (some timeDirs) mesh junkU junkC w).world).world.files (cellC_name t.name)
      = (main P env (some timeDirs) mesh junkU junkC w).world.files (cellC_name t.name)
    ∧ (main P env (some timeDirs) mesh junkU2 junkC2
        (main P env (some timeDirs) mesh junkU junkC w).world).world.fileBytes P
          (U_name t.name)
      = (main P env (some timeDirs) mesh junkU junkC w).world.fileBytes P (U_name t.name)
    ∧ (main P env (some timeDirs) mesh junkU2 junkC2
        (main P env (some timeDirs) mesh junkU junkC w).world).world.fileBytes P
          (cellC_name t.name)
      = (main P env (some timeDirs) mesh junkU junkC w).world.fileBytes P
          (cellC_name t.name) := by
  obtain ⟨hn, st1, hloop⟩ := main_exit0_inv P env timeDirs mesh junkU junkC w h1
  have hs0 : Sized mesh (⟨newArray junkU (3 * mesh.nCells), newArray junkC (3 * mesh.nCells),
      w, []⟩ : RunState S F) := ⟨newArray_length _ _, newArray_length _ _⟩
  have hinv := timeLoop_next_inv P env mesh hn timeDirs 0 _ st1 hs0 hloop
  obtain ⟨st1b, hloop1, _, hf1, hw1, _, hin1, hc1⟩ :=
    timeLoop_success P env mesh hn timeDirs 0 _ hs0
      (fun t1 ht1 => (hinv t1 ht1).1) (fun t1 ht1 => (hinv t1 ht1).2)
  rw [hloop] at hloop1
  cases hloop1
  have hr1 := main_of_next P env timeDirs mesh junkU junkC w st1 hn hloop
  rw [hr1]
  have hs2 : Sized mesh (⟨newArray junkU2 (3 * mesh.nCells),
      newArray junkC2 (3 * mesh.nCells), st1.world, []⟩ : RunState S F) :=
    ⟨newArray_length _ _, newArray_length _ _⟩
  obtain ⟨st2, hloop2, _, _, _, _, _, hc2⟩ := timeLoop_success P env mesh hn timeDirs 0 _ hs2
    (fun t1 ht1 => by
      obtain ⟨U1, h1, h2⟩ := (hinv t1 ht1).1
      exact ⟨U1, by rw [hf1]; exact h1, h2⟩)
    (fun t1 ht1 => (hinv t1 ht1).2)
  rw [main_of_next P env timeDirs mesh junkU2 junkC2 st1.world st2 hn hloop2]
  have hmU : U_name t.name ∈ outputNames timeDirs :=
    (mem_outputNames _ _).2 ⟨t, ht, Or.inl rfl⟩
  have hmC : cellC_name t.name ∈ outputNames timeDirs :=
    (mem_outputNames _ _).2 ⟨t, ht, Or.inr rfl⟩
  have hfiles : st2.world.files (U_name t.name) = st1.world.files (U_name t.name)
      ∧ st2.world.files (cellC_name t.name) = st1.world.files (cellC_name t.name) := by
    rcases hcase with ⟨rfl, rfl⟩ | ⟨U, hU, hfull⟩
    · have hag := timeLoop_agree P env mesh timeDirs 0
        ⟨newArray junkU2 (3 * mesh.nCells), newArray junkC2 (3 * mesh.nCells), w, []⟩
        ⟨newArray junkU2 (3 * mesh.nCells), newArray junkC2 (3 * mesh.nCells), st1.world, []⟩
        ⟨rfl, rfl, fun T => (hf1 T).symm, rfl, by simp [writtenFiles]⟩
      rw [hloop, hloop2] at hag
      obtain ⟨_, _, _, _, hfl⟩ := hag
      simp only [writtenFiles, List.nil_append] at hw1
      exact ⟨(hfl _ (by rw [hw1]; exact hmU)).symm, (hfl _ (by rw [hw1]; exact hmC)).symm⟩
    · have e1 := hc1 t ht U hU hfull
      have e2 := hc2 t ht U (by rw [hf1]; exact hU) hfull
      rw [e1.1, e1.2, e2.1, e2.2]
      exact ⟨rfl, rfl⟩
  refine ⟨rfl, hin1 _ hmU, hin1 _ hmC, hfiles.1, hfiles.2, ?_, ?_⟩
  · show (st2.world.files (U_name t.name)).map P.bytes
      = (st1.world.files (U_name t.name)).map P.bytes
    rw [hfiles.1]
  · show (st2.world.files (cellC_name t.name)).map P.bytes
      = (st1.world.files (cellC_name t.name)).map P.bytes
    rw [hfiles.2]

/-- C8. After a first run that returned 0, a second run of the same program on the same
inputs, started on the disk the first run left (which now also holds the `cellC` fields and
the files the first run wrote), returns 0 as well, and for every selected time step the two
files of the step exist and have the same content, hence the same bytes, as after the first
run. Moreover, for a time step whose field `U` holds `n` vectors this holds whatever the
memory of the arrays of the second run holds when they are allocated. -/
theorem C8_idempotent {S F : Type} (P : Platform S F) (env : Env) (timeDirs : List instant)
    (mesh : fvMesh S) (junkU junkC : Nat → F) (w : World S F) (t : instant)
    (h1 : (main P env (some timeDirs) mesh junkU junkC w).outcome = .exit 0)
    (ht : t ∈ timeDirs) :
    (main P env (some timeDirs) mesh junkU junkC
        (main P env (some timeDirs) mesh junkU junkC w).world).outcome = .exit 0
    ∧ (main P env (some timeDirs) mesh junkU junkC w).world.files (U_name t.name) ≠ none
    ∧ (main P env (some timeDirs) mesh junkU junkC w).world.files (cellC_name t.name) ≠ none
    ∧ (main P env (some timeDirs) mesh junkU junkC
        (main P env (some timeDirs) mesh junkU junkC w).world).world.files (U_name t.name)
      = (main P env (some timeDirs) mesh junkU junkC w).world.files (U_name t.name)
    ∧ (main P env (some timeDirs) mesh junkU junkC
        (main P env (some timeDirs) mesh junkU junkC w).world).world.files (cellC_name t.name)
      = (main P env (some timeDirs) mesh junkU junkC w).world.files (cellC_name t.name)
    ∧ (main P env (some timeDirs) mesh junkU junkC
        (main P env (some timeDirs) mesh junkU junkC w).world).world.fileBytes P
          (U_name t.name)
      = (main P env (some timeDirs) mesh junkU junkC w).world.fileBytes P (U_name t.name)
    ∧ (main P env (some timeDirs) mesh junkU junkC
        (main P env (some timeDirs) mesh junkU junkC w).world).world.fileBytes P
          (cellC_name t.name)
      = (main P env (some timeDirs) mesh junkU junkC w).world.fileBytes P
          (cellC_name t.name)
    ∧ (∀ (junkU2 junkC2 : Nat → F) (U : List (vector S)),
        w.fields t.name "U" = some U → U.length = mesh.nCells →
        (main P env (some timeDirs) mesh junkU2 junkC2
            (main P env (some timeDirs) mesh junkU junkC w).world).outcome = .exit 0
        ∧ (main P env (some timeDirs) mesh junkU2 junkC2
            (main P env (some timeDirs) mesh junkU junkC w).world).world.fileBytes P
              (U_name t.name)
          = (main P env (some timeDirs) mesh junkU junkC w).world.fileBytes P (U_name t.name)
        ∧ (main P env (some timeDirs) mesh junkU2 junkC2
            (main P env (some timeDirs) mesh junkU junkC w).world).world.fileBytes P
              (cellC_name t.name)
          = (main P env (some timeDirs) mesh junkU junkC w).world.fileBytes P
              (cellC_name t.name)) := by
  obtain ⟨a1, a2, a3, a4, a5, a6, a7⟩ := second_run_files P env timeDirs mesh junkU junkC
    junkU junkC w t h1 ht (Or.inl ⟨rfl, rfl⟩)
  refine ⟨a1, a2, a3, a4, a5, a6, a7, ?_⟩
  intro junkU2 junkC2 U hU hfull
  obtain ⟨b1, _, _, _, _, b6, b7⟩ := second_run_files P env timeDirs mesh junkU junkC
    junkU2 junkC2 w t h1 ht (Or.inr ⟨U, hU, hfull⟩)
  exact ⟨b1, b6, b7⟩

/-- C8 on the case of the examples with the time step `0.1`: the first run returns 0, and
the second run leaves the same file `U_flat_0.1.bin`. -/
theorem C8_idempotent_witness :
    (main PZ envOk (some [⟨"0.1"⟩]) mesh2 (fun _ => 0) (fun _ => 0) case2).outcome = .exit 0
    ∧ (main PZ envOk (some [⟨"0.1"⟩]) mesh2 (fun _ => 0) (fun _ => 0)
        (main PZ envOk (some [⟨"0.1"⟩]) mesh2 (fun _ => 0) (fun _ => 0) case2).world).world.files
          (U_name "0.1")
      = (main PZ envOk (some [⟨"0.1"⟩]) mesh2 (fun _ => 0) (fun _ => 0) case2).world.files
          (U_name "0.1") :=
  ⟨by decide,
    (C8_idempotent PZ envOk [⟨"0.1"⟩] mesh2 (fun _ => 0) (fun _ => 0) case2 ⟨"0.1"⟩
      (by decide) (by decide)).2.2.2.1⟩

/-! ## Runs that stop at a step -/

/-- A loop that stops does so at some step `j`, after `j` steps that went through. -/
theorem timeLoop_halt_decomp {S F : Type} (P : Platform S F) (env : Env) (mesh : fvMesh S)
    (ts : List instant) : ∀ (i : Nat) (st st1 : RunState S F) (o : Outcome),
    timeLoop P env mesh i ts st = .halt o st1 →
    ∃ j t stj, ts[j]? = some t ∧ timeLoop P env mesh i (ts.take j) st = .next stj
      ∧ timeStep P env mesh (i + j) t stj = .halt o st1 := by
  induction ts with
  | nil => intro i st st1 o h; simp [timeLoop] at h
  | cons t ts ih =>
    intro i st st1 o h
    cases hstep : timeStep P env mesh i t st with
    | next st2 =>
      simp only [timeLoop, hstep] at h
      obtain ⟨j, t1, stj, hj, hpre, hhalt⟩ := ih (i + 1) st2 st1 o h
      refine ⟨j + 1, t1, stj, by simpa using hj, ?_, ?_⟩
      · simp only [List.take_succ_cons, timeLoop, hstep]; exact hpre
      · have e : i + (j + 1) = i + 1 + j := by omega
        rw [e]; exact hhalt
    | halt o2 st2 =>
      simp only [timeLoop, hstep] at h
      cases h
      exact ⟨0, t, st, by simp, by simp [timeLoop], by simpa using hstep⟩

/-- The events of steps that went through: they belong to these steps and record no
failure. -/
theorem timeLoop_next_log {S F : Type} (P : Platform S F) (env : Env) (mesh : fvMesh S)
    (hn : 3 * mesh.nCells ≤ INT_MAX) (ts : List instant) (i : Nat) (st st1 : RunState S F)
    (hs : Sized mesh st) (h : timeLoop P env mesh i ts st = .next st1) :
    Sized mesh st1 ∧ ∀ e ∈ st1.log,
      e ∈ st.log ∨ (i ≤ e.timei ∧ e.timei < i + ts.length ∧ e.isFailure = false) := by
  have key := timeLoop_induct P env mesh
    (fun i1 s1 => i ≤ i1 ∧ Sized mesh s1 ∧ ∀ e ∈ s1.log,
      e ∈ st.log ∨ (i ≤ e.timei ∧ e.timei < i1 ∧ e.isFailure = false))
    (fun _ _ => True)
    (by
      intro i1 t s1 s2 hinv hstep
      obtain ⟨hi, hs1, hlog⟩ := hinv
      have hsU := hs1.1
      have hsC := hs1.2
      rcases timeStep_cases P env mesh i1 t s1 hs1 hn with
        ⟨_, h⟩ | ⟨U, _, _, h⟩ | ⟨U, _, _, _, h⟩ | ⟨U, _, _, _, _, h⟩ | ⟨U, hU, hl, hoU, hoC, h⟩
      · rw [h] at hstep; cases hstep
      · rw [h] at hstep; cases hstep
      · rw [h] at hstep; cases hstep
      · rw [h] at hstep; cases hstep
      · obtain ⟨s3, hstep3, hs3, _⟩ :=
          timeStep_next_spec P env mesh hn i1 t s1 hs1 U hU hl hoU hoC
        rw [hstep] at hstep3
        cases hstep3
        rw [h] at hstep
        cases hstep
        refine ⟨by omega, hs3, ?_⟩
        intro e he
        rcases List.mem_append.1 he with he | he
        · rcases hlog e he with h1 | ⟨h1, h2, h3⟩
          · exact Or.inl h1
          · exact Or.inr ⟨h1, by omega, h3⟩
        · right
          simp only [List.mem_cons, List.mem_singleton, List.not_mem_nil, or_false] at he
          rcases he with rfl | rfl | rfl <;>
            exact ⟨hi, by simp [Event.timei], rfl⟩)
    (fun _ _ _ _ _ _ _ => trivial) ts i st ⟨le_rfl, hs, fun e he => Or.inl he⟩
  rw [h] at key
  exact ⟨key.2.1, key.2.2⟩

/-- A run whose log records a failed `fopen` at step `k`: the steps before `k` went through,
step `k` loaded its field and either failed to open `U_flat` (and did nothing more) or
wrote `U_flat` and failed to open `cellC_flat`; the run ended there with `exit(1)`. -/
theorem main_openFailed {S F : Type} (P : Platform S F) (env : Env) (timeDirs : List instant)
    (mesh : fvMesh S) (junkU junkC : Nat → F) (w : World S F) (k : Nat) (T file : String)
    (he : Event.openFailed k T file ∈ (main P env (some timeDirs) mesh junkU junkC w).log) :
    3 * mesh.nCells ≤ INT_MAX ∧ timeDirs[k]? = some ⟨T⟩ ∧
    ∃ stk U, timeLoop P env mesh 0 (timeDirs.take k)
        ⟨newArray junkU (3 * mesh.nCells), newArray junkC (3 * mesh.nCells), w, []⟩ = .next stk
      ∧ stk.world.fields T "U" = some U ∧ U.length ≤ mesh.nCells
      ∧ ((file = U_name T ∧ env.canOpen (U_name T) = false
          ∧ main P env (some timeDirs) mesh junkU junkC w
            = ⟨.exit 1, stk.world, stk.log ++ [.openFailed k T (U_name T)]⟩)
        ∨ (file = cellC_name T ∧ env.canOpen (U_name T) = true
          ∧ env.canOpen (cellC_name T) = false
          ∧ main P env (some timeDirs) mesh junkU junkC w
            = ⟨.exit 1,
                stk.world.writeFile (U_name T)
                  (fwrite env (U_name T) (refill P U stk.U_flat) (3 * mesh.nCells)),
                stk.log ++ [.wrote k T (U_name T) (refill P U stk.U_flat)
                    (fwrite env (U_name T) (refill P U stk.U_flat) (3 * mesh.nCells)).length,
                  .openFailed k T (cellC_name T)]⟩)) := by
  by_cases hn : 3 * mesh.nCells ≤ INT_MAX
  swap
  · rw [main_overflow _ _ _ _ _ _ _ hn] at he; simp at he
  refine ⟨hn, ?_⟩
  have hs0 : Sized mesh (⟨newArray junkU (3 * mesh.nCells), newArray junkC (3 * mesh.nCells),
      w, []⟩ : RunState S F) := ⟨newArray_length _ _, newArray_length _ _⟩
  cases hloop : timeLoop P env mesh 0 timeDirs
      ⟨newArray junkU (3 * mesh.nCells), newArray junkC (3 * mesh.nCells), w, []⟩ with
  | next st1 =>
    rw [main_of_next P env timeDirs mesh junkU junkC w st1 hn hloop] at he
    rcases (timeLoop_next_log P env mesh hn timeDirs 0 _ st1 hs0 hloop).2 _ he with h | h
    · simp at h
    · simp [Event.isFailure] at h
  | halt o st1 =>
    have hmain := main_of_halt P env timeDirs mesh junkU junkC w st1 o hn hloop
    rw [hmain] at he
    obtain ⟨j, t, stj, hj, hpre, hhalt⟩ := timeLoop_halt_decomp P env mesh timeDirs 0 _ st1 o hloop
    obtain ⟨hsj, hlogj⟩ := timeLoop_next_log P env mesh hn (timeDirs.take j) 0 _ stj hs0 hpre
    have hnot : Event.openFailed k T file ∉ stj.log := by
      intro hmem
      rcases hlogj _ hmem with h | h
      · simp at h
      · simp [Event.isFailure] at h
    simp only [Nat.zero_add] at hhalt
    rcases timeStep_cases P env mesh j t stj hsj hn with
      ⟨_, h⟩ | ⟨U, _, _, h⟩ | ⟨U, hU, hl, hoU, h⟩ | ⟨U, hU, hl, hoU, hoC, h⟩ | ⟨U, _, _, _, _, h⟩
    · rw [h] at hhalt; cases hhalt
      simp only [List.mem_append, List.mem_singleton] at he
      rcases he with he | he
      · exact absurd he hnot
      · cases he
    · rw [h] at hhalt; cases hhalt
      simp only [List.mem_append, List.mem_singleton] at he
      rcases he with he | he
      · exact absurd he hnot
      · cases he
    · rw [h] at hhalt; cases hhalt
      simp only [List.mem_append, List.mem_singleton] at he
      rcases he with he | he
      · exact absurd he hnot
      · cases he
        exact ⟨hj, stj, U, hpre, hU, hl.le, Or.inl ⟨rfl, hoU, hmain⟩⟩
    · rw [h] at hhalt; cases hhalt
      simp only [List.mem_append, List.mem_cons, List.mem_singleton, List.not_mem_nil,
        or_false] at he
      rcases he with he | he | he
      · exact absurd he hnot
      · cases he
      · cases he
        exact ⟨hj, stj, U, hpre, hU, hl.le, Or.inr ⟨rfl, hoU, hoC, hmain⟩⟩
    · rw [h] at hhalt; cases hhalt

/-- The time loop over a list in two parts: the second part is run from the state the first
part leaves, unless the first part stops. -/
theorem timeLoop_append {S F : Type} (P : Platform S F) (env : Env) (mesh : fvMesh S)
    (a b : List instant) : ∀ (i : Nat) (st : RunState S F),
    timeLoop P env mesh i (a ++ b) st
      = match timeLoop P env mesh i a st with
        | .next st1 => timeLoop P env mesh (i + a.length) b st1
        | .halt o st1 => .halt o st1 := by
  induction a with
  | nil => intro i st; simp [timeLoop]
  | cons t a ih =>
    intro i st
    cases hstep : timeStep P env mesh i t st with
    | next st2 =>
      have e : i + (a.length + 1) = i + 1 + a.length := by omega
      simp only [List.cons_append, timeLoop, hstep, List.length_cons]
      rw [e]
      exact ih (i + 1) st2
    | halt o st2 => simp only [List.cons_append, timeLoop, hstep]

/-- A run whose steps before `k` go through and whose step `k` stops ends with the outcome
and in the state of step `k`. -/
theorem main_halt_at {S F : Type} (P : Platform S F) (env : Env) (timeDirs : List instant)
    (mesh : fvMesh S) (junkU junkC : Nat → F) (w : World S F) (k : Nat) (t : instant)
    (stk st1 : RunState S F) (o : Outcome) (hn : 3 * mesh.nCells ≤ INT_MAX)
    (hk : timeDirs[k]? = some t)
    (hpre : timeLoop P env mesh 0 (timeDirs.take k)
      ⟨newArray junkU (3 * mesh.nCells), newArray junkC (3 * mesh.nCells), w, []⟩ = .next stk)
    (hstep : timeStep P env mesh k t stk = .halt o st1) :
    main P env (some timeDirs) mesh junkU junkC w = ⟨o, st1.world, st1.log⟩ := by
  obtain ⟨hlt, hget⟩ := List.getElem?_eq_some_iff.1 hk
  have hsplit : timeDirs = timeDirs.take k ++ t :: timeDirs.drop (k + 1) := by
    rw [← hget, ← List.drop_eq_getElem_cons hlt, List.take_append_drop]
  have hlen : (timeDirs.take k).length = k := by
    rw [List.length_take]; exact Nat.min_eq_left hlt.le
  apply main_of_halt P env timeDirs mesh junkU junkC w st1 o hn
  rw [hsplit, timeLoop_append, hpre]
  simp only [hlen, Nat.zero_add, timeLoop, hstep]

/-- What the steps that went through leave: buffers of `3 * n` floats, the fields `U` of the
case, the files of these steps and no other file touched, events of these steps only. -/
theorem timeLoop_next_state {S F : Type} (P : Platform S F) (env : Env) (mesh : fvMesh S)
    (hn : 3 * mesh.nCells ≤ INT_MAX) (ts : List instant) (st st1 : RunState S F)
    (hs : Sized mesh st) (h : timeLoop P env mesh 0 ts st = .next st1) :
    Sized mesh st1
    ∧ (∀ T, st1.world.fields T "U" = st.world.fields T "U")
    ∧ writtenFiles st1.log = writtenFiles st.log ++ outputNames ts
    ∧ (∀ t ∈ ts, env.canOpen (U_name t.name) = true ∧ env.canOpen (cellC_name t.name) = true)
    ∧ (∀ e ∈ st1.log, e ∈ st.log ∨ e.timei < ts.length) := by
  have hinv := timeLoop_next_inv P env mesh hn ts 0 st st1 hs h
  obtain ⟨st2, hloop, hs2, hf, hw, _⟩ := timeLoop_success P env mesh hn ts 0 st hs
    (fun t1 ht1 => (hinv t1 ht1).1) (fun t1 ht1 => (hinv t1 ht1).2)
  rw [h] at hloop
  cases hloop
  refine ⟨hs2, hf, hw, fun t1 ht1 => (hinv t1 ht1).2, ?_⟩
  intro e he
  rcases (timeLoop_next_log P env mesh hn ts 0 st st1 hs h).2 e he with h1 | ⟨_, h1, _⟩
  · exact Or.inl h1
  · right; omega

/-! ## C4 and C5: a destination that cannot be opened -/

/-- C4. In every run that reaches step `k` (the steps before `k`, run on their own, return
0), if `fopen` fails on `U_flat_T.bin` or on `cellC_flat_T.bin` of the time `T` of step `k`:
the run ends with a non-zero code; when the field `U` of the step loads, it ends with
`exit(1)` at a failed `fopen` of step `k` on one of the two files; no event of the run
belongs to a step after `k`; the only file written that the steps before `k` did not write
is `U_flat_T.bin`; and every file written by the steps before `k` holds after the abort
what it holds after them. -/
theorem C4_open_failure {S F : Type} (P : Platform S F) (env : Env) (timeDirs : List instant)
    (mesh : fvMesh S) (junkU junkC : Nat → F) (w : World S F) (k : Nat) (t : instant)
    (hk : timeDirs[k]? = some t)
    (hpre : (main P env (some (timeDirs.take k)) mesh junkU junkC w).outcome = .exit 0)
    (hfail : env.canOpen (U_name t.name) = false ∨ env.canOpen (cellC_name t.name) = false) :
    (main P env (some timeDirs) mesh junkU junkC w).outcome.nonZero
    ∧ (∀ U, readField mesh w t.name "U" = some U →
        (main P env (some timeDirs) mesh junkU junkC w).outcome = .exit 1
        ∧ ∃ file, (file = U_name t.name ∨ file = cellC_name t.name)
          ∧ env.canOpen file = false
          ∧ Event.openFailed k t.name file
              ∈ (main P env (some timeDirs) mesh junkU junkC w).log)
    ∧ (∀ e ∈ (main P env (some timeDirs) mesh junkU junkC w).log, e.timei ≤ k)
    ∧ (∀ f ∈ writtenFiles (main P env (some timeDirs) mesh junkU junkC w).log,
        f ∈ writtenFiles (main P env (some (timeDirs.take k)) mesh junkU junkC w).log
        ∨ f = U_name t.name)
    ∧ (∀ f ∈ writtenFiles (main P env (some (timeDirs.take k)) mesh junkU junkC w).log,
        (main P env (some timeDirs) mesh junkU junkC w).world.files f
          = (main P env (some (timeDirs.take k)) mesh junkU junkC w).world.files f) := by
  obtain ⟨hn, stk, hloop⟩ := main_exit0_inv P env (timeDirs.take k) mesh junkU junkC w hpre
  have hs0 : Sized mesh (⟨newArray junkU (3 * mesh.nCells), newArray junkC (3 * mesh.nCells),
      w, []⟩ : RunState S F) := ⟨newArray_length _ _, newArray_length _ _⟩
  obtain ⟨hsk, hfk, hw, hopen, hlog⟩ :=
    timeLoop_next_state P env mesh hn (timeDirs.take k) _ stk hs0 hloop
  have hlt : ∀ e ∈ stk.log, e.timei ≤ k := by
    intro e hmem
    rcases hlog e hmem with h | h
    · simp at h
    · have : (timeDirs.take k).length ≤ k := by simp [List.length_take]
      omega
  have hfw : ∀ U, readField mesh w t.name "U" = some U →
      stk.world.fields t.name "U" = some U ∧ U.length = mesh.nCells := by
    intro U h
    rw [hfk]
    exact (readField_eq_some mesh w t.name "U" U).1 h
  rw [main_of_next P env (timeDirs.take k) mesh junkU junkC w stk hn hloop]
  rcases timeStep_cases P env mesh k t stk hsk hn with
    ⟨h0, h⟩ | ⟨U1, h0, h1, h⟩ | ⟨U1, hU1, _, hoU, h⟩ | ⟨U1, hU1, _, hoU, hoC, h⟩
      | ⟨U1, _, _, hoU, hoC, _⟩
  · rw [main_halt_at P env timeDirs mesh junkU junkC w k t stk _ _ hn hk hloop h]
    refine ⟨by simp [Outcome.nonZero], ?_, ?_, ?_, fun _ _ => rfl⟩
    · intro U hU
      rw [(hfw U hU).1] at h0
      cases h0
    · intro e hmem
      rcases List.mem_append.1 hmem with h2 | h2
      · exact hlt e h2
      · simp at h2; subst h2; simp [Event.timei]
    · intro f hf
      left
      simpa [writtenFiles_append, writtenFiles] using hf
  · rw [main_halt_at P env timeDirs mesh junkU junkC w k t stk _ _ hn hk hloop h]
    refine ⟨by simp [Outcome.nonZero], ?_, ?_, ?_, fun _ _ => rfl⟩
    · intro U hU
      have h2 := hfw U hU
      rw [h2.1] at h0
      cases h0
      exact absurd h2.2 h1
    · intro e hmem
      rcases List.mem_append.1 hmem with h2 | h2
      · exact hlt e h2
      · simp at h2; subst h2; simp [Event.timei]
    · intro f hf
      left
      simpa [writtenFiles_append, writtenFiles] using hf
  · rw [main_halt_at P env timeDirs mesh junkU junkC w k t stk _ _ hn hk hloop h]
    refine ⟨by simp [Outcome.nonZero], ?_, ?_, ?_, fun _ _ => rfl⟩
    · intro U _
      exact ⟨rfl, U_name t.name, Or.inl rfl, hoU, by simp⟩
    · intro e hmem
      rcases List.mem_append.1 hmem with h2 | h2
      · exact hlt e h2
      · simp at h2; subst h2; simp [Event.timei]
    · intro f hf
      left
      simpa [writtenFiles_append, writtenFiles] using hf
  · rw [main_halt_at P env timeDirs mesh junkU junkC w k t stk _ _ hn hk hloop h]
    refine ⟨by simp [Outcome.nonZero], ?_, ?_, ?_, ?_⟩
    · intro U _
      exact ⟨rfl, cellC_name t.name, Or.inr rfl, hoC, by simp⟩
    · intro e hmem
      rcases List.mem_append.1 hmem with h2 | h2
      · exact hlt e h2
      · simp at h2; rcases h2 with rfl | rfl <;> simp [Event.timei]
    · intro f hf
      simp only [writtenFiles_append, writtenFiles, List.mem_append, List.mem_singleton] at hf
      exact hf
    · intro f hf
      have hf1 : f ∈ outputNames (timeDirs.take k) := by
        simp only [writtenFiles, List.nil_append] at hw
        rw [← hw]; exact hf
      obtain ⟨t1, ht1, hor⟩ := (mem_outputNames _ _).1 hf1
      have hne : f ≠ U_name t.name := by
        rintro rfl
        rcases hor with h2 | h2
        · have := U_name_injective _ _ h2
          have hopen2 := (hopen t1 ht1).2
          rw [← this, hoC] at hopen2
          cases hopen2
        · exact U_name_ne_cellC_name _ _ h2
      simp [World.writeFile, hne]
  · rcases hfail with h2 | h2
    · rw [hoU] at h2; cases h2
    · rw [hoC] at h2; cases h2

/-- C4 on the case of the examples, with the steps `0.1` and `0.2`. With a C library that
cannot open `cellC_flat_0.1.bin`, the run stops at step 0 with `exit(1)` and writes no file
but `U_flat_0.1.bin`; with a C library that cannot open `U_flat_0.2.bin`, the run stops at
step 1 with `exit(1)`, after the step `0.1`, whose two files keep what they were given. -/
theorem C4_open_failure_witness :
    (([⟨"0.1"⟩, ⟨"0.2"⟩] : List instant)[0]? = some ⟨"0.1"⟩
      ∧ envNoCellC.canOpen (cellC_name "0.1") = false
      ∧ (main PZ envNoCellC (some [⟨"0.1"⟩, ⟨"0.2"⟩]) mesh2 (fun _ => 0) (fun _ => 0)
          case2).outcome = .exit 1
      ∧ (∀ e ∈ (main PZ envNoCellC (some [⟨"0.1"⟩, ⟨"0.2"⟩]) mesh2 (fun _ => 0) (fun _ => 0)
          case2).log, e.timei ≤ 0))
    ∧ (([⟨"0.1"⟩, ⟨"0.2"⟩] : List instant)[1]? = some ⟨"0.2"⟩
      ∧ envNoU.canOpen (U_name "0.2") = false
      ∧ (main PZ envNoU (some ([⟨"0.1"⟩, ⟨"0.2"⟩] : List instant)) mesh2 (fun _ => 0)
          (fun _ => 0) case2).outcome = .exit 1
      ∧ (∀ e ∈ (main PZ envNoU (some [⟨"0.1"⟩, ⟨"0.2"⟩]) mesh2 (fun _ => 0) (fun _ => 0)
          case2).log, e.timei ≤ 1)
      ∧ (∀ f ∈ writtenFiles (main PZ envNoU (some (([⟨"0.1"⟩, ⟨"0.2"⟩] : List instant).take 1))
            mesh2 (fun _ => 0) (fun _ => 0) case2).log,
          (main PZ envNoU (some [⟨"0.1"⟩, ⟨"0.2"⟩]) mesh2 (fun _ => 0) (fun _ => 0)
            case2).world.files f
          = (main PZ envNoU (some (([⟨"0.1"⟩, ⟨"0.2"⟩] : List instant).take 1)) mesh2
              (fun _ => 0) (fun _ => 0) case2).world.files f)) :=
  have h1 := C4_open_failure PZ envNoCellC [⟨"0.1"⟩, ⟨"0.2"⟩] mesh2 (fun _ => 0) (fun _ => 0)
    case2 0 ⟨"0.1"⟩ (by decide) (by decide) (Or.inr (by decide))
  have h2 := C4_open_failure PZ envNoU [⟨"0.1"⟩, ⟨"0.2"⟩] mesh2 (fun _ => 0) (fun _ => 0)
    case2 1 ⟨"0.2"⟩ (by decide) (by decide) (Or.inl (by decide))
  ⟨⟨by decide, by decide, (h1.2.1 [⟨1, 2, 3⟩, ⟨4, 5, 6⟩] (by decide)).1, h1.2.2.1⟩,
    ⟨by decide, by decide, (h2.2.1 [⟨7, 8, 9⟩, ⟨10, 11, 12⟩] (by decide)).1, h2.2.2.1,
      h2.2.2.2.2⟩⟩

/-- C5 as stated fails: when `U_flat_0.1.bin` opens and only `cellC_flat_0.1.bin` cannot be
opened, the run ends with `exit(1)` at step 0 and the file `U_flat_0.1.bin`, which did not
exist before, exists after the abort and holds the six values of the step. -/
theorem C5_counterexample :
    envNoCellC.canOpen "U_flat_0.1.bin" = true
    ∧ envNoCellC.canOpen "cellC_flat_0.1.bin" = false
    ∧ case2.files "U_flat_0.1.bin" = none
    ∧ (main PZ envNoCellC (some [⟨"0.1"⟩]) mesh2 (fun _ => 0) (fun _ => 0) case2).outcome
        = .exit 1
    ∧ (main PZ envNoCellC (some [⟨"0.1"⟩]) mesh2 (fun _ => 0) (fun _ => 0) case2).world.files
        "U_flat_0.1.bin" = some [1, 2, 3, 4, 5, 6] := by
  refine ⟨by decide, by decide, by decide, by decide, by decide⟩

/-- C5, amended. In every run whose log records that a destination of step `k` could not be
opened: when it is `U_flat_T.bin`, step `k` wrote no file and the files of the working
directory are those left by the steps before `k`; when it is `cellC_flat_T.bin`, the file
`U_flat_T.bin` was opened and written at step `k` with the `3 * n` floats of the buffer of
the step, it holds what `fwrite` stored of them, and `cellC_flat_T.bin` was not written at
step `k`. -/
theorem C5_step_files {S F : Type} (P : Platform S F) (env : Env) (timeDirs : List instant)
    (mesh : fvMesh S) (junkU junkC : Nat → F) (w : World S F) (k : Nat) (T file : String)
    (he : Event.openFailed k T file ∈ (main P env (some timeDirs) mesh junkU junkC w).log) :
    (file = U_name T →
      (∀ T1 f data stored, Event.wrote k T1 f data stored
          ∉ (main P env (some timeDirs) mesh junkU junkC w).log)
      ∧ (main P env (some timeDirs) mesh junkU junkC w).world.files
          = (main P env (some (timeDirs.take k)) mesh junkU junkC w).world.files)
    ∧ (file = cellC_name T →
      (∃ data stored, Event.wrote k T (U_name T) data stored
          ∈ (main P env (some timeDirs) mesh junkU junkC w).log
        ∧ data.length = 3 * mesh.nCells
        ∧ (main P env (some timeDirs) mesh junkU junkC w).world.files (U_name T)
            = some (fwrite env (U_name T) data (3 * mesh.nCells)))
      ∧ (∀ T1 data stored, Event.wrote k T1 (cellC_name T) data stored
          ∉ (main P env (some timeDirs) mesh junkU junkC w).log)) := by
  obtain ⟨hn, hk, stk, U, hpre, hU, hl, hcase⟩ :=
    main_openFailed P env timeDirs mesh junkU junkC w k T file he
  have hs0 : Sized mesh (⟨newArray junkU (3 * mesh.nCells), newArray junkC (3 * mesh.nCells),
      w, []⟩ : RunState S F) := ⟨newArray_length _ _, newArray_length _ _⟩
  obtain ⟨hsk, hlog⟩ := timeLoop_next_log P env mesh hn (timeDirs.take k) 0 _ stk hs0 hpre
  have hlt : ∀ e ∈ stk.log, e.timei < k := by
    intro e hmem
    rcases hlog e hmem with h | ⟨_, h, _⟩
    · simp at h
    · have : (timeDirs.take k).length ≤ k := by simp [List.length_take]
      omega
  have hnotk : ∀ T1 f data stored, Event.wrote k T1 f data stored ∉ stk.log := by
    intro T1 f data stored hmem
    have := hlt _ hmem
    simp [Event.timei] at this
  rw [main_of_next P env (timeDirs.take k) mesh junkU junkC w stk hn hpre]
  rcases hcase with ⟨rfl, hoU, hmain⟩ | ⟨rfl, hoU, hoC, hmain⟩
  · rw [hmain]
    constructor
    · intro _
      refine ⟨?_, rfl⟩
      intro T1 f data stored hmem
      rcases List.mem_append.1 hmem with h | h
      · exact hnotk _ _ _ _ h
      · simp at h
    · intro h
      exact absurd h (U_name_ne_cellC_name T T)
  · rw [hmain]
    constructor
    · intro h
      exact absurd h.symm (U_name_ne_cellC_name T T)
    · intro _
      have hlu : (refill P U stk.U_flat).length = 3 * mesh.nCells := by
        rw [refill_length _ _ _ (by rw [hsk.1]; omega), hsk.1]
      refine ⟨⟨refill P U stk.U_flat,
        (fwrite env (U_name T) (refill P U stk.U_flat) (3 * mesh.nCells)).length,
        by simp, hlu, by simp [World.writeFile]⟩, ?_⟩
      intro T1 data stored hmem
      rcases List.mem_append.1 hmem with h | h
      · exact hnotk _ _ _ _ h
      · simp at h
        exact U_name_ne_cellC_name _ _ h.2.1.symm

/-- C5 (amended) on the case of the examples: `cellC_flat_0.1.bin` cannot be opened at
step 0, and `U_flat_0.1.bin` was written at that step. -/
theorem C5_step_files_witness :
    Event.openFailed 0 "0.1" (cellC_name "0.1")
      ∈ (main PZ envNoCellC (some [⟨"0.1"⟩]) mesh2 (fun _ => 0) (fun _ => 0) case2).log
    ∧ ∃ data stored, Event.wrote 0 "0.1" (U_name "0.1") data stored
          ∈ (main PZ envNoCellC (some [⟨"0.1"⟩]) mesh2 (fun _ => 0) (fun _ => 0) case2).log
        ∧ data.length = 3 * mesh2.nCells
        ∧ (main PZ envNoCellC (some [⟨"0.1"⟩]) mesh2 (fun _ => 0) (fun _ => 0)
            case2).world.files (U_name "0.1")
            = some (fwrite envNoCellC (U_name "0.1") data (3 * mesh2.nCells)) :=
  ⟨by decide,
    ((C5_step_files PZ envNoCellC [⟨"0.1"⟩] mesh2 (fun _ => 0) (fun _ => 0) case2 0 "0.1"
      (cellC_name "0.1") (by decide)).2 rfl).1⟩

/-! ## C6: a write that stores fewer items than it was given -/

theorem timeStep_similar {S F : Type} (P : Platform S F) (env1 env2 : Env) (mesh : fvMesh S)
    (hc : env1.canOpen = env2.canOpen) (i : Nat) (t : instant) (s1 s2 : RunState S F)
    (h : Similar s1 s2) :
    StepSimilar (timeStep P env1 mesh i t s1) (timeStep P env2 mesh i t s2) := by
  obtain ⟨hU, hC, hf, hl⟩ := h
  have hrd : readField mesh s1.world t.name "U" = readField mesh s2.world t.name "U" :=
    readField_congr mesh s1.world s2.world t.name "U" (by rw [hf])
  cases hf2 : readField mesh s2.world t.name "U" with
  | none =>
    have hf1 : readField mesh s1.world t.name "U" = none := by rw [hrd]; exact hf2
    simp [timeStep, hf1, hf2, StepSimilar, Similar, hU, hC, hf, hl, Event.eraseStored]
  | some U =>
    have hf1 : readField mesh s1.world t.name "U" = some U := by rw [hrd]; exact hf2
    cases hfl : flatten P U mesh.C s2.U_flat s2.cellC_flat with
    | none =>
      simp [timeStep, hf1, hf2, hU, hC, hfl, StepSimilar, Similar, hf, hl]
    | some ls =>
      cases hoU : env2.canOpen (U_name t.name) with
      | false =>
        simp [timeStep, hf1, hf2, hU, hC, hfl, hc, hoU, StepSimilar, Similar, hf, hl,
          Event.eraseStored]
      | true =>
        cases hoC : env2.canOpen (cellC_name t.name) with
        | false =>
          simp [timeStep, hf1, hf2, hU, hC, hfl, hc, hoU, hoC, StepSimilar, Similar, hf, hl,
            Event.eraseStored, World.writeFile]
        | true =>
          simp [timeStep, hf1, hf2, hU, hC, hfl, hc, hoU, hoC, StepSimilar, Similar, hf, hl,
            Event.eraseStored, World.writeFile, World.writeField]

theorem timeLoop_similar {S F : Type} (P : Platform S F) (env1 env2 : Env) (mesh : fvMesh S)
    (hc : env1.canOpen = env2.canOpen) (ts : List instant) :
    ∀ (i : Nat) (s1 s2 : RunState S F), Similar s1 s2 →
      StepSimilar (timeLoop P env1 mesh i ts s1) (timeLoop P env2 mesh i ts s2) := by
  induction ts with
  | nil => intro i s1 s2 h; simpa [timeLoop, StepSimilar] using h
  | cons t ts ih =>
    intro i s1 s2 h
    have hstep := timeStep_similar P env1 env2 mesh hc i t s1 s2 h
    cases h1 : timeStep P env1 mesh i t s1 with
    | next a =>
      cases h2 : timeStep P env2 mesh i t s2 with
      | next b =>
        rw [h1, h2] at hstep
        simp only [timeLoop, h1, h2]
        exact ih (i + 1) a b hstep
      | halt o b => rw [h1, h2] at hstep; exact hstep.elim
    | halt o a =>
      cases h2 : timeStep P env2 mesh i t s2 with
      | next b => rw [h1, h2] at hstep; exact hstep.elim
      | halt o2 b =>
        rw [h1, h2] at hstep
        simp only [timeLoop, h1, h2]
        exact hstep

/-- C6 as stated fails: the write to `U_flat_0.1.bin` stores 2 of its 6 floats, the file is
left with these 2, and the run neither stops nor fails: it goes on to `cellC_flat_0.1.bin`
and to the time step `0.2` and returns 0. -/
theorem C6_counterexample :
    Event.wrote 0 "0.1" "U_flat_0.1.bin" [1, 2, 3, 4, 5, 6] 2
      ∈ (main PZ envShort (some [⟨"0.1"⟩, ⟨"0.2"⟩]) mesh2 (fun _ => 0) (fun _ => 0) case2).log
    ∧ (main PZ envShort (some [⟨"0.1"⟩, ⟨"0.2"⟩]) mesh2 (fun _ => 0) (fun _ => 0)
        case2).world.files "U_flat_0.1.bin" = some [1, 2]
    ∧ (main PZ envShort (some [⟨"0.1"⟩, ⟨"0.2"⟩]) mesh2 (fun _ => 0) (fun _ => 0)
        case2).outcome = .exit 0
    ∧ writtenFiles (main PZ envShort (some [⟨"0.1"⟩, ⟨"0.2"⟩]) mesh2 (fun _ => 0) (fun _ => 0)
        case2).log
      = ["U_flat_0.1.bin", "cellC_flat_0.1.bin", "U_flat_0.2.bin", "cellC_flat_0.2.bin"] := by
  refine ⟨by decide, by decide, by decide, by decide⟩

/-- C6, amended. The run takes no notice of the number of items an `fwrite` stores: every
file written is left with what the C library stored of the `3 * n` floats it was given, and
two runs on the same inputs with C libraries that open the same files, whatever each
stores of the items it is given, end the same way, process the same steps with the same
events in the same order (the same files opened and written, with the same data handed to
`fwrite`, the same failures), and leave the same fields in the case. -/
theorem C6_short_write {S F : Type} (P : Platform S F) (env1 env2 : Env)
    (sel : Option (List instant)) (mesh : fvMesh S) (junkU junkC : Nat → F) (w : World S F)
    (hc : env1.canOpen = env2.canOpen) :
    (main P env1 sel mesh junkU junkC w).outcome = (main P env2 sel mesh junkU junkC w).outcome
    ∧ (main P env1 sel mesh junkU junkC w).log.map Event.eraseStored
        = (main P env2 sel mesh junkU junkC w).log.map Event.eraseStored
    ∧ writtenFiles (main P env1 sel mesh junkU junkC w).log
        = writtenFiles (main P env2 sel mesh junkU junkC w).log
    ∧ (main P env1 sel mesh junkU junkC w).world.fields
        = (main P env2 sel mesh junkU junkC w).world.fields
    ∧ (∀ f ∈ writtenFiles (main P env1 sel mesh junkU junkC w).log,
        ∃ data : List F, data.length = 3 * mesh.nCells
          ∧ (main P env1 sel mesh junkU junkC w).world.files f
              = some (data.take (min (3 * mesh.nCells) (env1.stored f (3 * mesh.nCells))))) := by
  have key : (main P env1 sel mesh junkU junkC w).outcome
        = (main P env2 sel mesh junkU junkC w).outcome
      ∧ (main P env1 sel mesh junkU junkC w).log.map Event.eraseStored
        = (main P env2 sel mesh junkU junkC w).log.map Event.eraseStored
      ∧ (main P env1 sel mesh junkU junkC w).world.fields
        = (main P env2 sel mesh junkU junkC w).world.fields := by
    cases sel with
    | none => simp [main]
    | some timeDirs =>
      by_cases hn : 3 * mesh.nCells ≤ INT_MAX
      · have hsim := timeLoop_similar P env1 env2 mesh hc timeDirs 0
          ⟨newArray junkU (3 * mesh.nCells), newArray junkC (3 * mesh.nCells), w, []⟩
          ⟨newArray junkU (3 * mesh.nCells), newArray junkC (3 * mesh.nCells), w, []⟩
          ⟨rfl, rfl, rfl, rfl⟩
        cases h1 : timeLoop P env1 mesh 0 timeDirs
            ⟨newArray junkU (3 * mesh.nCells), newArray junkC (3 * mesh.nCells), w, []⟩ with
        | next a =>
          cases h2 : timeLoop P env2 mesh 0 timeDirs
              ⟨newArray junkU (3 * mesh.nCells), newArray junkC (3 * mesh.nCells), w, []⟩ with
          | next b =>
            rw [h1, h2] at hsim
            rw [main_of_next P env1 timeDirs mesh junkU junkC w a hn h1,
              main_of_next P env2 timeDirs mesh junkU junkC w b hn h2]
            exact ⟨rfl, hsim.2.2.2, hsim.2.2.1⟩
          | halt o b => rw [h1, h2] at hsim; exact hsim.elim
        | halt o a =>
          cases h2 : timeLoop P env2 mesh 0 timeDirs
              ⟨newArray junkU (3 * mesh.nCells), newArray junkC (3 * mesh.nCells), w, []⟩ with
          | next b => rw [h1, h2] at hsim; exact hsim.elim
          | halt o2 b =>
            rw [h1, h2] at hsim
            rw [main_of_halt P env1 timeDirs mesh junkU junkC w a o hn h1,
              main_of_halt P env2 timeDirs mesh junkU junkC w b o2 hn h2]
            exact ⟨hsim.1, hsim.2.2.2.2, hsim.2.2.2.1⟩
      · rw [main_overflow _ _ _ _ _ _ _ hn, main_overflow _ _ _ _ _ _ _ hn]
        exact ⟨rfl, rfl, rfl⟩
  refine ⟨key.1, key.2.1, ?_, key.2.2, ?_⟩
  · rw [← writtenFiles_eraseStored, key.2.1, writtenFiles_eraseStored]
  · exact main_files_written P env1 sel mesh junkU junkC w

/-- C6 (amended) on the case of the examples: the run whose write to `U_flat_0.1.bin` is cut
short ends like the run whose writes are all complete. -/
theorem C6_short_write_witness :
    envShort.canOpen = envOk.canOpen
    ∧ (main PZ envShort (some [⟨"0.1"⟩, ⟨"0.2"⟩]) mesh2 (fun _ => 0) (fun _ => 0)
        case2).outcome
      = (main PZ envOk (some [⟨"0.1"⟩, ⟨"0.2"⟩]) mesh2 (fun _ => 0) (fun _ => 0)
        case2).outcome :=
  ⟨rfl, (C6_short_write PZ envShort envOk (some [⟨"0.1"⟩, ⟨"0.2"⟩]) mesh2 (fun _ => 0)
    (fun _ => 0) case2 rfl).1⟩

/-! ## C9: a field whose number of values is not the number of cells -/

/-- C9. At a time step `k` of the selection whose field `U` does not hold exactly `n` values,
the reader of the field detects the mismatch (it delivers no field), and: the run does not
return 0; no file is written for that time step, in this run at no step; every buffer the
run hands to `fwrite` is, in full, the interleaved components of a field `U` of exactly `n`
values at the time step of the file, or of the `n` cell centres, so that no entry of a file
is left from an earlier time step or unset and the two files of a step describe the same
cells; and when step `k` is reached (the steps before `k`, run on their own, return 0) the
run ends at step `k` with the fatal error of the reader, a failure for its caller, the log
is that of the steps before `k` followed by the read failure of step `k`, and the files and
fields are those left by the steps before `k`. -/
theorem C9_size_mismatch {S F : Type} (P : Platform S F) (env : Env) (timeDirs : List instant)
    (mesh : fvMesh S) (junkU junkC : Nat → F) (w : World S F) (k : Nat) (t : instant)
    (U : List (vector S)) (hk : timeDirs[k]? = some t)
    (hU : w.fields t.name "U" = some U) (hne : U.length ≠ mesh.nCells) :
    readField mesh w t.name "U" = none
    ∧ (main P env (some timeDirs) mesh junkU junkC w).outcome ≠ .exit 0
    ∧ (∀ i file data stored, Event.wrote i t.name file data stored
        ∉ (main P env (some timeDirs) mesh junkU junkC w).log)
    ∧ (∀ i T file data stored, Event.wrote i T file data stored
        ∈ (main P env (some timeDirs) mesh junkU junkC w).log →
        ∃ V, w.fields T "U" = some V ∧ V.length = mesh.nCells
          ∧ data.length = 3 * mesh.nCells
          ∧ ((file = U_name T ∧ data = interleaved P V)
            ∨ (file = cellC_name T ∧ data = interleaved P mesh.C)))
    ∧ ((main P env (some (timeDirs.take k)) mesh junkU junkC w).outcome = .exit 0 →
        (main P env (some timeDirs) mesh junkU junkC w).outcome = .fatalError
        ∧ (main P env (some timeDirs) mesh junkU junkC w).outcome.nonZero
        ∧ (main P env (some timeDirs) mesh junkU junkC w).log
            = (main P env (some (timeDirs.take k)) mesh junkU junkC w).log
              ++ [.readFailed k t.name]
        ∧ (main P env (some timeDirs) mesh junkU junkC w).world.files
            = (main P env (some (timeDirs.take k)) mesh junkU junkC w).world.files
        ∧ (main P env (some timeDirs) mesh junkU junkC w).world.fields
            = (main P env (some (timeDirs.take k)) mesh junkU junkC w).world.fields) := by
  have hs0 : Sized mesh (⟨newArray junkU (3 * mesh.nCells), newArray junkC (3 * mesh.nCells),
      w, []⟩ : RunState S F) := ⟨newArray_length _ _, newArray_length _ _⟩
  have hmem : t ∈ timeDirs := by
    obtain ⟨hlt, hget⟩ := List.getElem?_eq_some_iff.1 hk
    rw [← hget]
    exact List.getElem_mem hlt
  refine ⟨?_, ?_, ?_, ?_, ?_⟩
  · simp [readField, hU, hne]
  · intro h
    obtain ⟨hn, st1, hloop⟩ := main_exit0_inv P env timeDirs mesh junkU junkC w h
    obtain ⟨⟨V, hV, hl⟩, _⟩ := timeLoop_next_inv P env mesh hn timeDirs 0 _ st1 hs0 hloop t hmem
    rw [hU] at hV
    cases hV
    exact hne hl
  · intro i file data stored he
    obtain ⟨V, hV, hl, _⟩ := main_log_good P env (some timeDirs) mesh junkU junkC w _ he
    rw [hU] at hV
    cases hV
    exact hne hl
  · intro i T file data stored he
    obtain ⟨V, hV, hl, hdl, _, hor⟩ :=
      main_log_good P env (some timeDirs) mesh junkU junkC w _ he
    have htake : data.take (3 * V.length) = data :=
      List.take_of_length_le (by rw [hdl, hl])
    have hC : mesh.C.take V.length = mesh.C :=
      List.take_of_length_le (by rw [hl]; exact le_rfl)
    refine ⟨V, hV, hl, hdl, ?_⟩
    rcases hor with ⟨h1, h2⟩ | ⟨h1, h2⟩
    · exact Or.inl ⟨h1, by rw [← h2, htake]⟩
    · exact Or.inr ⟨h1, by rw [← hC, ← h2, htake]⟩
  · intro hpre
    obtain ⟨hn, stk, hloop⟩ := main_exit0_inv P env (timeDirs.take k) mesh junkU junkC w hpre
    obtain ⟨hsk, hfk, _⟩ := timeLoop_next_state P env mesh hn (timeDirs.take k) _ stk hs0 hloop
    have hUk : stk.world.fields t.name "U" = some U := by rw [hfk]; exact hU
    rw [main_of_next P env (timeDirs.take k) mesh junkU junkC w stk hn hloop]
    rcases timeStep_cases P env mesh k t stk hsk hn with
      ⟨h0, _⟩ | ⟨U1, _, _, h⟩ | ⟨U1, h0, hl, _⟩ | ⟨U1, h0, hl, _⟩ | ⟨U1, h0, hl, _⟩
    · rw [hUk] at h0; cases h0
    · rw [main_halt_at P env timeDirs mesh junkU junkC w k t stk _ _ hn hk hloop h]
      exact ⟨rfl, by simp [Outcome.nonZero], rfl, rfl, rfl⟩
    · rw [hUk] at h0; cases h0; exact absurd hl hne
    · rw [hUk] at h0; cases h0; exact absurd hl hne
    · rw [hUk] at h0; cases h0; exact absurd hl hne

/-- C9 on the case of the examples, with a mesh of two cells. The field `U` of the time
`0.3` holds one vector: the run over the steps `0.2` and `0.3` ends at step 1 with the
fatal error of the reader and writes no file for `0.3`. The field `U` of the time `0.4`
holds three vectors: the run over the step `0.4` ends at step 0 in the same way. -/
theorem C9_size_mismatch_witness :
    (([⟨"0.2"⟩, ⟨"0.3"⟩] : List instant)[1]? = some ⟨"0.3"⟩
      ∧ case2.fields "0.3" "U" = some [⟨13, 14, 15⟩]
      ∧ ([⟨13, 14, 15⟩] : List (vector Int)).length ≠ mesh2.nCells
      ∧ (main PZ envOk (some [⟨"0.2"⟩, ⟨"0.3"⟩]) mesh2 (fun _ => 0) (fun _ => 0)
          case2).outcome = .fatalError
      ∧ (∀ i file data stored, Event.wrote i "0.3" file data stored
          ∉ (main PZ envOk (some [⟨"0.2"⟩, ⟨"0.3"⟩]) mesh2 (fun _ => 0) (fun _ => 0)
            case2).log)
      ∧ (main PZ envOk (some [⟨"0.2"⟩, ⟨"0.3"⟩]) mesh2 (fun _ => 0) (fun _ => 0)
          case2).world.files "U_flat_0.3.bin" = none
      ∧ (main PZ envOk (some [⟨"0.2"⟩, ⟨"0.3"⟩]) mesh2 (fun _ => 0) (fun _ => 0)
          case2).world.files "U_flat_0.2.bin" = some [7, 8, 9, 10, 11, 12])
    ∧ (([⟨"0.4"⟩] : List instant)[0]? = some ⟨"0.4"⟩
      ∧ case2.fields "0.4" "U" = some [⟨1, 1, 1⟩, ⟨2, 2, 2⟩, ⟨3, 3, 3⟩]
      ∧ ([⟨1, 1, 1⟩, ⟨2, 2, 2⟩, ⟨3, 3, 3⟩] : List (vector Int)).length ≠ mesh2.nCells
      ∧ (main PZ envOk (some [⟨"0.4"⟩]) mesh2 (fun _ => 0) (fun _ => 0) case2).outcome
          = .fatalError
      ∧ (main PZ envOk (some [⟨"0.4"⟩]) mesh2 (fun _ => 0) (fun _ => 0) case2).log
          = [.readFailed 0 "0.4"]) :=
  have h1 := C9_size_mismatch PZ envOk [⟨"0.2"⟩, ⟨"0.3"⟩] mesh2 (fun _ => 0) (fun _ => 0)
    case2 1 ⟨"0.3"⟩ [⟨13, 14, 15⟩] (by decide) (by decide) (by decide)
  have h2 := C9_size_mismatch PZ envOk [⟨"0.4"⟩] mesh2 (fun _ => 0) (fun _ => 0)
    case2 0 ⟨"0.4"⟩ [⟨1, 1, 1⟩, ⟨2, 2, 2⟩, ⟨3, 3, 3⟩] (by decide) (by decide) (by decide)
  ⟨⟨by decide, by decide, by decide, (h1.2.2.2.2 (by decide)).1, h1.2.2.1, by decide,
      by decide⟩,
    ⟨by decide, by decide, by decide, (h2.2.2.2.2 (by decide)).1,
      (h2.2.2.2.2 (by decide)).2.2.1⟩⟩

end FoamToNumpy
